import Mathlib

set_option linter.unusedVariables false

namespace YicesSpec

/-!
Shallow embedding of the yices2 global term/type database
(src/src/term_api.c) together with the EF skolemizer
(src/src/exists_forall/ef_skolemize.c).

Term references follow the representation described by the specification:
a reference is a tagged integer whose low bit carries the boolean polarity
and whose remaining bits index into the term table, so that `opposite_term`
is a bit flip.  The term-table internals (terms.c), the type-table
internals (types.c) and the polynomial/bit buffers (arith_buffer_terms.c,
bvlogic_buffers.c) are not part of the staged sources; those pieces are
modelled from the spec and marked as such in their doc comments.  Every
function whose name matches a C symbol of term_api.c or ef_skolemize.c is
a direct translation of that function's body.
-/

/-- Modelled from the spec: type descriptors of the type table (types.c is
not under src/); section 3.1 of the spec lists the variants. -/
inductive TypeDesc where
  | boolT
  | intT
  | realT
  | bitvectorT (n : Nat)
  | scalarT (card : Nat)
  | uninterpretedT (uid : Nat)
  | tupleT (elems : List Int)
  | funcT (dom : List Int) (range : Int)
deriving DecidableEq

/-- NULL_TYPE sentinel (-1). -/
def NULL_TYPE : Int := -1

/-- Handle of the bool type: the base types are interned first, at init. -/
def bool_type : Int := 0

/-- Handle of the int type. -/
def int_type : Int := 1

/-- Handle of the real type. -/
def real_type : Int := 2

/-- Type table layout created by initialization: bool, int, real first. -/
def base_types : List TypeDesc := [.boolT, .intT, .realT]

/-- Descriptor stored at a type handle, if the handle is in range. -/
def type_desc (types : List TypeDesc) (τ : Int) : Option TypeDesc :=
  if τ < 0 then none else types.get? τ.toNat

/-- A type handle that does not denote a stored type. -/
def bad_type (types : List TypeDesc) (τ : Int) : Bool :=
  (type_desc types τ).isNone

/-- Modelled from the spec: supertype is Real when one operand is Int and
the other Real or Int, otherwise the common handle when equal, otherwise
none (section 4.1). -/
def super_type (types : List TypeDesc) (τ σ : Int) : Int :=
  if bad_type types τ || bad_type types σ then NULL_TYPE
  else if τ = σ then τ
  else if (τ = int_type ∧ σ = real_type) ∨ (τ = real_type ∧ σ = int_type) then real_type
  else NULL_TYPE

/-- Modelled from the spec: compatible iff a common supertype exists. -/
def compatible_types (types : List TypeDesc) (τ σ : Int) : Bool :=
  super_type types τ σ != NULL_TYPE

/-- Modelled from the spec: subtype order (Int below Real, reflexive). -/
def is_subtype (τ σ : Int) : Bool :=
  τ == σ || (τ == int_type && σ == real_type)

/-- Modelled from the spec: cardinality of a finite type (section 3.1);
none for the infinite types and for compounds, which the embedding does
not need. -/
def type_card : TypeDesc → Option Nat
  | .boolT => some 2
  | .bitvectorT n => some (2 ^ n)
  | .scalarT k => some k
  | _ => none

/-- Modelled from the spec: a bit of a bit-vector logic buffer, i.e. a
boolean bit expression (bit_expr.c is not under src/).  `bitOf t i`
stands for bit i of the bit-vector term t (the form written
(select i t) in the sources). -/
inductive BBit where
  | btrue
  | bfalse
  | bitOf (t : Int) (i : Nat)
deriving DecidableEq

/-- Term descriptors of the term table (terms.c is not under src/, so the
node layout is modelled from the spec, section 3.2; the argument shapes
follow the accessors used by term_api.c).  Composites carry term
references; a stored type handle appears where term_api.c reads one back
(ite, tuple, select, app, update, constants and variables). -/
inductive TermDesc where
  | trueT
  | constantT (τ : Int) (idx : Nat)
  | uninterpretedT (τ : Int) (uid : Nat)
  | varT (τ : Int) (idx : Nat)
  | iteT (c : Int) (thn : Int) (els : Int) (τ : Int)
  | eqT (l r : Int)
  | orT (args : List Int)
  | tupleT (args : List Int) (τ : Int)
  | selectT (i : Nat) (t : Int) (τ : Int)
  | appT (f : Int) (args : List Int) (τ : Int)
  | updateT (f : Int) (args : List Int) (v : Int) (τ : Int)
  | distinctT (args : List Int)
  | forallT (vars : List Int) (body : Int)
  | arithT (τ : Int) (p : List (Rat × List (Int × Nat)))
  | arithEq0T (t : Int)
  | arithGe0T (t : Int)
  | arithBineqT (l r : Int)
  | bvconstT (n : Nat) (bits : List Bool)
  | bvlogicT (bits : List BBit)
  | bvpolyT (n : Nat) (uid : Nat)
  | bvarrayT (args : List Int)
  | bveqT (l r : Int)
  | bvapplyT (op : Nat) (n : Nat) (l r : Int)
  | bitT (t : Int) (i : Nat)
deriving DecidableEq

/-- Error codes surfaced by the API (yices.h is not under src/; the set is
the one named by the spec, section 6, restricted to the codes this file
reaches). -/
inductive ErrorCode where
  | NO_ERROR
  | POS_INT_REQUIRED
  | NONNEG_INT_REQUIRED
  | TOO_MANY_ARGUMENTS
  | INVALID_TYPE
  | INVALID_TERM
  | TYPE_MISMATCH
  | INCOMPATIBLE_TYPES
  | BITVECTOR_REQUIRED
  | ARITHTERM_REQUIRED
  | INCOMPATIBLE_BVSIZES
  | EMPTY_BITVECTOR
deriving DecidableEq

/-- Last-error record: code plus the diagnostic slots the C code fills
(term1, term2, type1, type2, badval, index).  Setting an error updates
only the fields the corresponding C assignment writes. -/
structure ErrorRec where
  code : ErrorCode
  term1 : Int
  term2 : Int
  type1 : Int
  type2 : Int
  badval : Int
  index : Int
deriving DecidableEq

/-- Error record right after initialization. -/
def no_error : ErrorRec := ⟨.NO_ERROR, -1, -1, -1, -1, 0, 0⟩

/-- Global state of the manager: the type table, the term table, the
last-error record, and the two internal scratch buffers term_api.c uses
(internal_arith_buffer and internal_bvlogic_buffer). -/
structure YState where
  types : List TypeDesc
  terms : List TermDesc
  error : ErrorRec
  internal_arith : List (Rat × List (Int × Nat))
  internal_bvlogic : List BBit
deriving DecidableEq

/-- NULL_TERM sentinel (-1). -/
def NULL_TERM : Int := -1

/-- Reference of the true term: index 0, positive polarity. -/
def true_term : Int := 0

/-- Reference of the false term: the negation of true, an odd reference
with the same index. -/
def false_term : Int := 1

/-- Index part of a term reference (the reference without its polarity
bit). -/
def term_index (t : Int) : Nat := t.toNat / 2

/-- Polarity bit of a reference. -/
def is_neg_term (t : Int) : Bool := t % 2 == 1

/-- Modelled from the spec: boolean negation of a reference is an O(1)
flip of the polarity bit (spec sections 3.2 and 6). -/
def opposite_term (t : Int) : Int :=
  if t % 2 == 0 then t + 1 else t - 1

/-- Reference with positive polarity (the underlying index). -/
def unsigned_term (t : Int) : Int :=
  if t % 2 == 0 then t else t - 1

/-- Argument of a NOT_TERM reference: its positive version. -/
def not_term_arg (t : Int) : Int := unsigned_term t

/-- Modelled from the spec: not_term(tbl, t) checks and flips polarity;
it agrees with opposite_term on good terms (term_api.c lines 903-907
use the two interchangeably in release builds). -/
def not_term (t : Int) : Int := opposite_term t

/-- Descriptor stored at a term reference, if its index is in range. -/
def term_desc (s : YState) (t : Int) : Option TermDesc :=
  if t < 0 then none else s.terms.get? (term_index t)

/-- A reference that does not denote a stored term. -/
def bad_term (s : YState) (t : Int) : Bool :=
  (term_desc s t).isNone

/-- Term kinds as dispatched on by term_api.c.  A reference of negative
polarity has kind NOT_TERM. -/
inductive TermKind where
  | NOT_TERM
  | TRUE_TERM
  | CONSTANT_TERM
  | UNINTERPRETED_TERM
  | VARIABLE
  | ITE_TERM
  | EQ_TERM
  | OR_TERM
  | TUPLE_TERM
  | SELECT_TERM
  | APP_TERM
  | UPDATE_TERM
  | DISTINCT_TERM
  | FORALL_TERM
  | ARITH_TERM
  | ARITH_EQ_ATOM
  | ARITH_GE_ATOM
  | ARITH_BINEQ_ATOM
  | BV_CONST_TERM
  | BV_LOGIC_TERM
  | BV_ARITH_TERM
  | BV_ARRAY_TERM
  | BV_EQ_ATOM
  | BV_APPLY_TERM
  | BIT_TERM
  | UNKNOWN_TERM
deriving DecidableEq

/-- Kind of a reference. -/
def term_kind (s : YState) (t : Int) : TermKind :=
  if t % 2 == 1 then .NOT_TERM
  else
    match term_desc s t with
    | some .trueT => .TRUE_TERM
    | some (.constantT _ _) => .CONSTANT_TERM
    | some (.uninterpretedT _ _) => .UNINTERPRETED_TERM
    | some (.varT _ _) => .VARIABLE
    | some (.iteT _ _ _ _) => .ITE_TERM
    | some (.eqT _ _) => .EQ_TERM
    | some (.orT _) => .OR_TERM
    | some (.tupleT _ _) => .TUPLE_TERM
    | some (.selectT _ _ _) => .SELECT_TERM
    | some (.appT _ _ _) => .APP_TERM
    | some (.updateT _ _ _ _) => .UPDATE_TERM
    | some (.distinctT _) => .DISTINCT_TERM
    | some (.forallT _ _) => .FORALL_TERM
    | some (.arithT _ _) => .ARITH_TERM
    | some (.arithEq0T _) => .ARITH_EQ_ATOM
    | some (.arithGe0T _) => .ARITH_GE_ATOM
    | some (.arithBineqT _ _) => .ARITH_BINEQ_ATOM
    | some (.bvconstT _ _) => .BV_CONST_TERM
    | some (.bvlogicT _) => .BV_LOGIC_TERM
    | some (.bvpolyT _ _) => .BV_ARITH_TERM
    | some (.bvarrayT _) => .BV_ARRAY_TERM
    | some (.bveqT _ _) => .BV_EQ_ATOM
    | some (.bvapplyT _ _ _ _) => .BV_APPLY_TERM
    | some (.bitT _ _) => .BIT_TERM
    | none => .UNKNOWN_TERM

/-- First handle whose descriptor equals d, or NULL_TYPE. -/
def type_index (types : List TypeDesc) (d : TypeDesc) : Int :=
  match types.indexOf? d with
  | some i => (i : Int)
  | none => NULL_TYPE

/-- Type of a term: boolean for negative polarity, otherwise read from
the descriptor (stored handle, or the fixed handle of the kind). -/
def term_type (s : YState) (t : Int) : Int :=
  if t % 2 == 1 then bool_type
  else
    match term_desc s t with
    | some .trueT => bool_type
    | some (.constantT τ _) => τ
    | some (.uninterpretedT τ _) => τ
    | some (.varT τ _) => τ
    | some (.iteT _ _ _ τ) => τ
    | some (.eqT _ _) => bool_type
    | some (.orT _) => bool_type
    | some (.tupleT _ τ) => τ
    | some (.selectT _ _ τ) => τ
    | some (.appT _ _ τ) => τ
    | some (.updateT _ _ _ τ) => τ
    | some (.distinctT _) => bool_type
    | some (.forallT _ _) => bool_type
    | some (.arithT τ _) => τ
    | some (.arithEq0T _) => bool_type
    | some (.arithGe0T _) => bool_type
    | some (.arithBineqT _ _) => bool_type
    | some (.bvconstT n _) => type_index s.types (.bitvectorT n)
    | some (.bvlogicT bits) => type_index s.types (.bitvectorT bits.length)
    | some (.bvpolyT n _) => type_index s.types (.bitvectorT n)
    | some (.bvarrayT args) => type_index s.types (.bitvectorT args.length)
    | some (.bveqT _ _) => bool_type
    | some (.bvapplyT _ n _ _) => type_index s.types (.bitvectorT n)
    | some (.bitT _ _) => bool_type
    | none => NULL_TYPE

/-- Whether t is a boolean term. -/
def is_boolean_term (s : YState) (t : Int) : Bool :=
  term_type s t == bool_type

/-- Whether t is an arithmetic term (type int or real). -/
def is_arithmetic_term (s : YState) (t : Int) : Bool :=
  term_type s t == int_type || term_type s t == real_type

/-- Whether t has type int. -/
def is_integer_term (s : YState) (t : Int) : Bool :=
  term_type s t == int_type

/-- Whether a type handle is the int type. -/
def is_integer_type (τ : Int) : Bool := τ == int_type

/-- Whether t is a bitvector term. -/
def is_bitvector_term (s : YState) (t : Int) : Bool :=
  match type_desc s.types (term_type s t) with
  | some (.bitvectorT _) => true
  | _ => false

/-- Bitsize of a bitvector term (0 when t is not one). -/
def term_bitsize (s : YState) (t : Int) : Nat :=
  match term_desc s t with
  | some (.bvconstT n _) => n
  | some (.bvlogicT bits) => bits.length
  | some (.bvpolyT n _) => n
  | some (.bvarrayT args) => args.length
  | some (.bvapplyT _ n _ _) => n
  | some _ =>
    match type_desc s.types (term_type s t) with
    | some (.bitvectorT n) => n
    | _ => 0
  | none => 0

/-- Modelled from the spec: hash-consing construction in the term table
(invariant T-2): an existing identical descriptor is reused, otherwise
the descriptor is appended and the fresh positive reference returned. -/
def hashCons (s : YState) (d : TermDesc) : Int × YState :=
  match s.terms.indexOf? d with
  | some i => (2 * (i : Int), s)
  | none => (2 * (s.terms.length : Int), { s with terms := s.terms ++ [d] })

/-- Interned equality node (arguments ordered by the callers). -/
def eq_term (s : YState) (l r : Int) : Int × YState := hashCons s (.eqT l r)

/-- Interned n-ary or node. -/
def or_term (s : YState) (args : List Int) : Int × YState := hashCons s (.orT args)

/-- Interned if-then-else node. -/
def ite_term (s : YState) (c thn els τ : Int) : Int × YState :=
  hashCons s (.iteT c thn els τ)

/-- Interned distinct node. -/
def distinct_term (s : YState) (args : List Int) : Int × YState :=
  hashCons s (.distinctT args)

/-- Interned bitvector equality atom. -/
def bveq_atom (s : YState) (l r : Int) : Int × YState := hashCons s (.bveqT l r)

/-- Interned binary arithmetic equality atom. -/
def arith_bineq_atom (s : YState) (l r : Int) : Int × YState :=
  hashCons s (.arithBineqT l r)

/-- Bits of the little-endian binary expansion of v, width n. -/
def natBits (n : Nat) (v : Nat) : List Bool :=
  (List.range n).map (fun i => v.testBit i)

/-- Interned small bitvector constant (width at most 64 in the C code). -/
def bv64_constant (s : YState) (n : Nat) (v : Nat) : Int × YState :=
  hashCons s (.bvconstT n (natBits n v))

/-- Interned wide bitvector constant from explicit bits. -/
def bvconst_term (s : YState) (n : Nat) (bits : List Bool) : Int × YState :=
  hashCons s (.bvconstT n bits)

/-- Interned bit-array term over boolean term references. -/
def bvarray_term (s : YState) (args : List Int) : Int × YState :=
  hashCons s (.bvarrayT args)

/-- Interned bit-vector logic term over bit expressions. -/
def bvlogic_term (s : YState) (bits : List BBit) : Int × YState :=
  hashCons s (.bvlogicT bits)

/-- Interned opaque binary bitvector operator node; the width is the one
of the left operand. -/
def bvapply_term (s : YState) (op : Nat) (t1 t2 : Int) : Int × YState :=
  hashCons s (.bvapplyT op (term_bitsize s t1) t1 t2)

/-- Fresh uninterpreted term: never hash-consed, always a new node. -/
def new_uninterpreted_term (s : YState) (τ : Int) : Int × YState :=
  (2 * (s.terms.length : Int),
   { s with terms := s.terms ++ [.uninterpretedT τ s.terms.length] })

/-- Opcode of bvshl. -/
def BVOP_SHL : Nat := 1

/-- Opcode of bvlshr. -/
def BVOP_LSHR : Nat := 2

/-- Opcode of bvashr. -/
def BVOP_ASHR : Nat := 3

/-- Modelled from the spec: the arity bound surfaced as
TOO_MANY_ARGUMENTS (yices.h is not under src/; the exact value is
irrelevant to the claims, only that small arities pass). -/
def YICES_MAX_ARITY : Nat := 2 ^ 28

/-- Translation of check_good_term (term_api.c:1482): false plus the
error record on a bad reference, true otherwise; never touches the
tables. -/
def check_good_term (s : YState) (t : Int) : Bool × YState :=
  if bad_term s t then
    (false, { s with error :=
      { s.error with code := .INVALID_TERM, term1 := t, index := -1 } })
  else (true, s)

/-- Loop body of check_good_terms (term_api.c:1493), carrying the index
of the current element for the error report. -/
def check_good_terms_from (s : YState) (i : Nat) : List Int → Bool × YState
  | [] => (true, s)
  | t :: rest =>
    if bad_term s t then
      (false, { s with error :=
        { s.error with code := .INVALID_TERM, term1 := t, index := (i : Int) } })
    else check_good_terms_from s (i + 1) rest

/-- Translation of check_good_terms (term_api.c:1493). -/
def check_good_terms (s : YState) (a : List Int) : Bool × YState :=
  check_good_terms_from s 0 a

/-- Translation of check_boolean_term (term_api.c:1552). -/
def check_boolean_term (s : YState) (t : Int) : Bool × YState :=
  if is_boolean_term s t then (true, s)
  else
    (false, { s with error :=
      { s.error with code := .TYPE_MISMATCH, term1 := t, type1 := bool_type,
                     index := -1 } })

/-- Loop body of check_boolean_args (term_api.c:1627). -/
def check_boolean_args_from (s : YState) (i : Nat) : List Int → Bool × YState
  | [] => (true, s)
  | t :: rest =>
    if is_boolean_term s t then check_boolean_args_from s (i + 1) rest
    else
      (false, { s with error :=
        { s.error with code := .TYPE_MISMATCH, term1 := t, type1 := bool_type,
                       index := (i : Int) } })

/-- Translation of check_boolean_args (term_api.c:1627). -/
def check_boolean_args (s : YState) (a : List Int) : Bool × YState :=
  check_boolean_args_from s 0 a

/-- Translation of check_arith_term (term_api.c:1565). -/
def check_arith_term (s : YState) (t : Int) : Bool × YState :=
  if is_arithmetic_term s t then (true, s)
  else
    (false, { s with error :=
      { s.error with code := .ARITHTERM_REQUIRED, term1 := t } })

/-- Translation of check_bitvector_term (term_api.c:1576). -/
def check_bitvector_term (s : YState) (t : Int) : Bool × YState :=
  if is_bitvector_term s t then (true, s)
  else
    (false, { s with error :=
      { s.error with code := .BITVECTOR_REQUIRED, term1 := t } })

/-- Translation of check_compatible_terms (term_api.c:1588). -/
def check_compatible_terms (s : YState) (t1 t2 : Int) : Bool × YState :=
  let τ1 := term_type s t1
  let τ2 := term_type s t2
  if compatible_types s.types τ1 τ2 then (true, s)
  else
    (false, { s with error :=
      { s.error with code := .INCOMPATIBLE_TYPES, term1 := t1, type1 := τ1,
                     term2 := t2, type2 := τ2 } })

/-- Short-circuit sequencing of validation checks, mirroring the C
conjunctions of check_ calls. -/
def andCheck (r : Bool × YState) (k : YState → Bool × YState) : Bool × YState :=
  match r with
  | (false, s) => (false, s)
  | (true, s) => k s

/-- Translation of check_good_eq (term_api.c:1607). -/
def check_good_eq (s : YState) (t1 t2 : Int) : Bool × YState :=
  andCheck (check_good_term s t1) fun s =>
  andCheck (check_good_term s t2) fun s =>
  check_compatible_terms s t1 t2

/-- Translation of check_compatible_bv_terms (term_api.c:1619). -/
def check_compatible_bv_terms (s : YState) (t1 t2 : Int) : Bool × YState :=
  andCheck (check_good_term s t1) fun s =>
  andCheck (check_good_term s t2) fun s =>
  andCheck (check_bitvector_term s t1) fun s =>
  andCheck (check_bitvector_term s t2) fun s =>
  check_compatible_terms s t1 t2

/-- Translation of check_positive (term_api.c:1379); the embedding passes
the argument count as a Nat (the C casts the int32 argument to
uint32). -/
def check_positive (s : YState) (n : Nat) : Bool × YState :=
  if n = 0 then
    (false, { s with error :=
      { s.error with code := .POS_INT_REQUIRED, badval := (n : Int) } })
  else (true, s)

/-- Translation of check_nonneg: n >= 0 holds by the Nat embedding of
the count, so this check always passes (the C rejects a negative
int32 with NONNEG_INT_REQUIRED). -/
def check_nonneg (s : YState) (n : Nat) : Bool × YState := (true, s)

/-- Translation of check_arity (term_api.c:1389). -/
def check_arity (s : YState) (n : Nat) : Bool × YState :=
  if n > YICES_MAX_ARITY then
    (false, { s with error :=
      { s.error with code := .TOO_MANY_ARGUMENTS, badval := (n : Int) } })
  else (true, s)

/-- Supertype fold of check_good_distinct_term (term_api.c:1717-1728):
chains super_type over the argument types and reports the first
incompatibility. -/
def distinct_type_fold (s : YState) (a0 : Int) (τ : Int) :
    List Int → Bool × YState
  | [] => (true, s)
  | t :: rest =>
    let τ2 := super_type s.types τ (term_type s t)
    if τ2 = NULL_TYPE then
      (false, { s with error :=
        { s.error with code := .INCOMPATIBLE_TYPES,
                       term1 := a0, type1 := term_type s a0,
                       term2 := t, type2 := term_type s t } })
    else distinct_type_fold s a0 τ2 rest

/-- Translation of check_good_distinct_term (term_api.c:1707). -/
def check_good_distinct_term (s : YState) (a : List Int) : Bool × YState :=
  andCheck (check_positive s a.length) fun s =>
  andCheck (check_arity s a.length) fun s =>
  andCheck (check_good_terms s a) fun s =>
  match a with
  | [] => (true, s)
  | a0 :: rest => distinct_type_fold s a0 (term_type s a0) rest

/-- Translation of bool_negate (term_api.c:1967): strip a NOT, otherwise
build one; under the polarity encoding both branches flip the low
bit. -/
def bool_negate (s : YState) (x : Int) : Int :=
  if term_kind s x = .NOT_TERM then not_term_arg x else not_term x

/-- Translation of mk_not (term_api.c:1982): constant folding on true
and false, then bool_negate. -/
def mk_not (s : YState) (x : Int) : Int :=
  if x = true_term then false_term
  else if x = false_term then true_term
  else bool_negate s x

/-- Translation of opposite_bool_terms (term_api.c:1992): whether x is
the negation of y. -/
def opposite_bool_terms (x y : Int) : Bool :=
  (x % 2 == 1 && unsigned_term x == y) || (y % 2 == 1 && unsigned_term y == x)

/-- Translation of mk_binary_or (term_api.c:2007). -/
def mk_binary_or (s : YState) (x y : Int) : Int × YState :=
  if x = y then (x, s)
  else if x = true_term then (x, s)
  else if y = true_term then (y, s)
  else if x = false_term then (y, s)
  else if y = false_term then (x, s)
  else if opposite_bool_terms x y then (true_term, s)
  else if x < y then or_term s [x, y]
  else or_term s [y, x]

/-- Translation of mk_binary_and (term_api.c:2037): builds
not (or (not x) (not y)) after the simplifications. -/
def mk_binary_and (s : YState) (x y : Int) : Int × YState :=
  if x = y then (x, s)
  else if x = true_term then (y, s)
  else if y = true_term then (x, s)
  else if x = false_term then (x, s)
  else if y = false_term then (y, s)
  else if opposite_bool_terms x y then (false_term, s)
  else
    let nx := bool_negate s x
    let ny := bool_negate s y
    let r := if nx < ny then or_term s [nx, ny] else or_term s [ny, nx]
    (not_term r.1, r.2)

/-- Translation of not_bool_var (term_api.c:2064): x is (not u) with u
uninterpreted. -/
def not_bool_var (s : YState) (x : Int) : Bool :=
  term_kind s x == .NOT_TERM &&
    term_kind s (not_term_arg x) == .UNINTERPRETED_TERM

/-- Translation of mk_iff (term_api.c:2082), with the variant branch the
source compiles (lines 2105-2116): rewrite (iff (not x) (not y)) to
(eq x y), also when either side is a negated uninterpreted. -/
def mk_iff (s : YState) (x y : Int) : Int × YState :=
  if x = y then (true_term, s)
  else if x = true_term then (y, s)
  else if y = true_term then (x, s)
  else if x = false_term then (mk_not s y, s)
  else if y = false_term then (mk_not s x, s)
  else if opposite_bool_terms x y then (false_term, s)
  else
    let rewrite :=
      (term_kind s x == .NOT_TERM && term_kind s y == .NOT_TERM) ||
        not_bool_var s x || not_bool_var s y
    let x1 := if rewrite then mk_not s x else x
    let y1 := if rewrite then mk_not s y else y
    if x1 > y1 then eq_term s y1 x1 else eq_term s x1 y1

/-- Translation of mk_xor (term_api.c:2141): peel negations tracking
parity and emit an equality, possibly negated. -/
def mk_xor (s : YState) (x y : Int) : Int × YState :=
  if x = y then (false_term, s)
  else if x = false_term then (y, s)
  else if y = false_term then (x, s)
  else if x = true_term then (mk_not s y, s)
  else if y = true_term then (mk_not s x, s)
  else if opposite_bool_terms x y then (true_term, s)
  else
    let negate1 := !(term_kind s x == .NOT_TERM)
    let x1 := if term_kind s x == .NOT_TERM then not_term_arg x else x
    let negate2 := if term_kind s y == .NOT_TERM then !negate1 else negate1
    let y1 := if term_kind s y == .NOT_TERM then not_term_arg y else y
    let r := if x1 > y1 then eq_term s y1 x1 else eq_term s x1 y1
    if negate2 then (not_term r.1, r.2) else r

/-- Translation of mk_implies (term_api.c:2183). -/
def mk_implies (s : YState) (x y : Int) : Int × YState :=
  if x = y then (true_term, s)
  else if x = true_term then (y, s)
  else if x = false_term then (true_term, s)
  else if y = true_term then (true_term, s)
  else if y = false_term then (bool_negate s x, s)
  else if opposite_bool_terms x y then (y, s)
  else
    let nx := bool_negate s x
    if nx < y then or_term s [nx, y] else or_term s [y, nx]

/-- Monomial list of an arithmetic polynomial: coefficient times power
product, a power product being a list of (term reference, exponent)
pairs. -/
abbrev ArithPoly : Type := List (Rat × List (Int × Nat))

/-- Modelled from the spec: the power product a non-polynomial
arithmetic term contributes to a buffer (the degenerate single-variable
case of section 4.2.2). -/
def pp_of_var (t : Int) : List (Int × Nat) := [(t, 1)]

/-- Modelled from the spec: monomials contributed by term t to an
arithmetic buffer (arith_buffer_terms.c is not under src/): a
polynomial node contributes its monomials, any other arithmetic term
contributes itself as a variable with coefficient one. -/
def monomials_of (s : YState) (t : Int) : ArithPoly :=
  match term_desc s t with
  | some (.arithT _ p) => p
  | _ => [(1, pp_of_var t)]

/-- Negation of a monomial list. -/
def poly_negate (p : ArithPoly) : ArithPoly :=
  p.map (fun m => (-m.1, m.2))

/-- Total coefficient of a power product inside a buffer. -/
def coeff_of (b : ArithPoly) (pp : List (Int × Nat)) : Rat :=
  (b.map (fun m => if m.2 = pp then m.1 else 0)).sum

/-- Modelled from the spec: buffer normalization (combine the monomials
of equal power products, drop the zero ones); the surviving power
products keep their first-occurrence order. -/
def arith_buffer_normalize (b : ArithPoly) : ArithPoly :=
  ((b.map (fun m => m.2)).dedup).filterMap
    (fun pp => let c := coeff_of b pp; if c = 0 then none else some (c, pp))

/-- Modelled from the spec: the buffer is the zero polynomial. -/
def arith_buffer_is_zero (b : ArithPoly) : Bool :=
  b.isEmpty

/-- Modelled from the spec: the buffer is a nonzero constant. -/
def arith_buffer_is_nonzero_const (b : ArithPoly) : Bool :=
  match b with
  | [(c, pp)] => pp.isEmpty && c != 0
  | _ => false

/-- Modelled from the spec: recognition of the two-term equality shape
a.x - a.y with x and y plain variables (section 4.2.2); yields the
pair (x, y). -/
def arith_buffer_is_equality (b : ArithPoly) : Option (Int × Int) :=
  match b with
  | [(c1, [(x, 1)]), (c2, [(y, 1)])] =>
    if c1 = -c2 && c1 != 0 then some (x, y) else none
  | _ => none

/-- Interned polynomial node from a buffer with the degenerate
single-monomial collapse of yices_arith_term (term_api.c:3621); the
type handle is supplied by the caller. -/
def arith_term_of_buffer (s : YState) (τ : Int) (b : ArithPoly) : Int × YState :=
  match b with
  | [(c, [(x, 1)])] =>
    if c = 1 then (x, s) else hashCons s (.arithT τ b)
  | _ => hashCons s (.arithT τ b)

/-- Translation of yices_arith_eq0_atom (term_api.c:3638): the atom
(b == 0) after normalization, simplified to true or false on
constants and rewritten to a binary equality when the buffer has the
two-term shape.  The normalized buffer stays in the internal scratch
slot, as the in-place C normalization leaves it. -/
def yices_arith_eq0_atom (s : YState) (b : ArithPoly) : Int × YState :=
  let nb := arith_buffer_normalize b
  let s := { s with internal_arith := nb }
  if arith_buffer_is_zero nb then (true_term, s)
  else if arith_buffer_is_nonzero_const nb then (false_term, s)
  else
    match arith_buffer_is_equality nb with
    | some (x, y) =>
      if x > y then arith_bineq_atom s y x else arith_bineq_atom s x y
    | none =>
      let r := arith_term_of_buffer s real_type nb
      hashCons r.2 (.arithEq0T r.1)

/-- Translation of mk_arith_diff (term_api.c:3952): reset the internal
arithmetic buffer and store t1 - t2 in it. -/
def mk_arith_diff (s : YState) (t1 t2 : Int) : YState :=
  { s with internal_arith := monomials_of s t1 ++ poly_negate (monomials_of s t2) }

/-- Translation of mk_lifted_aritheq (term_api.c:3967), forward
reference: needs mk_bool_ite, defined below. -/
structure LiftResult where
  cond : Int
  left1 : Int
  left2 : Int
  right1 : Int
  right2 : Int

/-- Translation of check_for_lift_if (term_api.c:2651): cheap lift-if
decomposition of a pair of terms, one of which is an if-then-else. -/
def check_for_lift_if (s : YState) (t1 t2 : Int) : Option LiftResult :=
  if term_kind s t1 = .ITE_TERM then
    if term_kind s t2 = .ITE_TERM then
      match term_desc s t1, term_desc s t2 with
      | some (.iteT c1 a1 b1 _), some (.iteT c2 a2 b2 _) =>
        if c1 = c2 then some ⟨c1, a1, a2, b1, b2⟩ else none
      | _, _ => none
    else
      match term_desc s t1 with
      | some (.iteT c1 a1 b1 _) => some ⟨c1, a1, t2, b1, t2⟩
      | _ => none
  else if term_kind s t2 = .ITE_TERM then
    match term_desc s t2 with
    | some (.iteT c2 a2 b2 _) => some ⟨c2, t1, a2, t1, b2⟩
    | _ => none
  else none

/-- Fuel-indexed translation of the mutually recursive disequality
oracle disequal_terms (term_api.c:2553); the fuel bounds the tuple
nesting depth (spec section 4.2.5) and call sites pass the size of the
term table, which bounds it in any well-formed table.  Exhausted fuel
answers false ("not demonstrably disequal"), the conservative answer. -/
def disequal_terms (s : YState) : Nat → Int → Int → Bool
  | 0, _, _ => false
  | fuel + 1, x, y =>
    if is_boolean_term s x then
      (x == true_term && y == false_term) ||
        (x == false_term && y == true_term) || opposite_bool_terms x y
    else if is_arithmetic_term s x then
      disequal_arith_terms s x y
    else if is_bitvector_term s x then
      disequal_bitvector_terms s x y
    else if term_kind s x != term_kind s y then false
    else
      match term_kind s x with
      | .CONSTANT_TERM => x != y
      | .TUPLE_TERM =>
        (match term_desc s x, term_desc s y with
         | some (.tupleT ax _), some (.tupleT ay _) =>
           (ax.zip ay).any (fun p => disequal_terms s fuel p.1 p.2)
         | _, _ => false)
      | .UPDATE_TERM =>
        (match term_desc s x, term_desc s y with
         | some (.updateT fx ax vx _), some (.updateT fy ay vy _) =>
           fx == fy && ax == ay && disequal_terms s fuel vx vy
         | _, _ => false)
      | _ => false
where
  /-- Translation of disequal_arith_terms (term_api.c:2441): polynomial
  versus polynomial by constant-nonzero difference, polynomial versus a
  plain arithmetic term by the const-plus-var test; the theory variable
  of a non-polynomial arithmetic term is the term itself. -/
  disequal_arith_terms (s : YState) (x y : Int) : Bool :=
    match term_desc s x, term_desc s y with
    | some (.arithT _ p), some (.arithT _ q) =>
      arith_buffer_is_nonzero_const
        (arith_buffer_normalize (p ++ poly_negate q))
    | some (.arithT _ p), _ =>
      arith_buffer_is_nonzero_const
        (arith_buffer_normalize (p ++ poly_negate [(1, pp_of_var y)]))
    | _, some (.arithT _ q) =>
      arith_buffer_is_nonzero_const
        (arith_buffer_normalize (q ++ poly_negate [(1, pp_of_var x)]))
    | _, _ => false
  /-- Whether two bit expressions are demonstrably different (both
  constant with opposite values). -/
  bbit_must_differ (a b : BBit) : Bool :=
    (a == .btrue && b == .bfalse) || (a == .bfalse && b == .btrue)
  /-- Translation of disequal_bitvector_terms (term_api.c:2461):
  constant against constant, bit-array against bit-array position-wise,
  constant against bit-array; anything else is not demonstrable. -/
  disequal_bitvector_terms (s : YState) (x y : Int) : Bool :=
    match term_desc s x, term_desc s y with
    | some (.bvlogicT bx), some (.bvlogicT by_) =>
      (bx.zip by_).any (fun p => bbit_must_differ p.1 p.2)
    | some (.bvconstT _ cx), some (.bvconstT _ cy) => cx != cy
    | some (.bvconstT _ cx), some (.bvlogicT by_) =>
      ((cx.map (fun v => if v then BBit.btrue else BBit.bfalse)).zip by_).any
        (fun p => bbit_must_differ p.1 p.2)
    | some (.bvlogicT bx), some (.bvconstT _ cy) =>
      (bx.zip (cy.map (fun v => if v then BBit.btrue else BBit.bfalse))).any
        (fun p => bbit_must_differ p.1 p.2)
    | _, _ => false

/-- Translation of equal_term_arrays (term_api.c:2591). -/
def equal_term_arrays (a b : List Int) : Bool := a == b

/-- Translation of disequal_term_arrays (term_api.c:2601). -/
def disequal_term_arrays (s : YState) (fuel : Nat) (a b : List Int) : Bool :=
  (a.zip b).any (fun p => disequal_terms s fuel p.1 p.2)

/-- Translation of pairwise_disequal_terms (term_api.c:2613): quadratic
check that all elements are demonstrably pairwise disequal. -/
def pairwise_disequal_terms (s : YState) (fuel : Nat) : List Int → Bool
  | [] => true
  | x :: rest =>
    rest.all (fun y => disequal_terms s fuel x y) &&
      pairwise_disequal_terms s fuel rest

/-- Translation of mk_bveq_ite (term_api.c:2209): build
(bv-eq x (ite c y z)) with the smaller reference on the left. -/
def mk_bveq_ite (s : YState) (c x y z : Int) : Int × YState :=
  let r := ite_term s c y z (term_type s y)
  if x > r.1 then bveq_atom r.2 r.1 x else bveq_atom r.2 x r.1

/-- Translation of mk_lifted_ite_bveq (term_api.c:2230): the lift-if rule
(ite c (bveq x y) (bveq x u)) to (bveq x (ite c y u)), matched by any
shared side of the two equalities. -/
def mk_lifted_ite_bveq (s : YState) (c t e : Int) : Int × YState :=
  match term_desc s t, term_desc s e with
  | some (.bveqT l1 r1), some (.bveqT l2 r2) =>
    if l1 = l2 then mk_bveq_ite s c l1 r1 r2
    else if l1 = r2 then mk_bveq_ite s c l1 r1 l2
    else if r1 = l2 then mk_bveq_ite s c r1 l1 r2
    else if r1 = r2 then mk_bveq_ite s c r1 l1 l2
    else ite_term s c t e bool_type
  | _, _ => ite_term s c t e bool_type

/-- Translation of mk_bool_ite (term_api.c:2271): the boolean
if-then-else simplifications, the final flip of a negated condition,
and the lifted bitvector-equality rule. -/
def mk_bool_ite (s : YState) (c t e : Int) : Int × YState :=
  if t = e then (t, s)
  else if c = true_term then (t, s)
  else if c = false_term then (e, s)
  else if opposite_bool_terms t e then mk_iff s c t
  else if c = t then mk_binary_or s c e
  else if c = e then mk_binary_and s c t
  else if opposite_bool_terms c t then mk_binary_and s t e
  else if opposite_bool_terms c e then mk_binary_or s t e
  else if t = true_term then mk_binary_or s c e
  else if e = false_term then mk_binary_and s c t
  else if t = false_term then mk_binary_and s (mk_not s c) e
  else if e = true_term then mk_binary_or s (mk_not s c) t
  else
    let flip := term_kind s c = .NOT_TERM
    let c1 := if flip then not_term_arg c else c
    let t1 := if flip then e else t
    let e1 := if flip then t else e
    if term_kind s t1 = .BV_EQ_ATOM ∧ term_kind s e1 = .BV_EQ_ATOM then
      mk_lifted_ite_bveq s c1 t1 e1
    else
      ite_term s c1 t1 e1 bool_type

/-- Modelled from the spec: int_array_sort sorts term references in
increasing order (int_array_sort.c is not under src/; invariant T-3). -/
def int_array_sort (l : List Int) : List Int :=
  l.insertionSort (· ≤ ·)

/-- Scan of mk_or (term_api.c:2330-2349) over the sorted tail: x is the
last value seen, kept the compacted prefix; duplicates are skipped,
true or an opposite pair short-circuits. -/
def mk_or_scan (s : YState) (x : Int) (kept : List Int) :
    List Int → Int × YState
  | [] => if kept.length ≤ 1 then (x, s) else or_term s kept
  | y :: rest =>
    if x = y then mk_or_scan s x kept rest
    else if y = true_term || opposite_bool_terms x y then (true_term, s)
    else mk_or_scan s y (kept ++ [y]) rest

/-- Translation of mk_or (term_api.c:2311): sort, compact, short-circuit,
and build the or node of the kept arguments. -/
def mk_or (s : YState) (a : List Int) : Int × YState :=
  match int_array_sort a with
  | [] => (true_term, s)
  | x :: rest =>
    if x = true_term then (true_term, s)
    else mk_or_scan s x (if x = false_term then [] else [x]) rest

/-- Scan of mk_and (term_api.c:2378-2389), the dual of mk_or_scan. -/
def mk_and_scan (s : YState) (x : Int) (kept : List Int) :
    List Int → Int × YState
  | [] =>
    if kept.length ≤ 1 then (x, s)
    else
      let r := or_term s (kept.map (bool_negate s))
      (not_term r.1, r.2)
  | y :: rest =>
    if x = y then mk_and_scan s x kept rest
    else if y = false_term || opposite_bool_terms x y then (false_term, s)
    else mk_and_scan s y (kept ++ [y]) rest

/-- Translation of mk_and (term_api.c:2359): sort, compact,
short-circuit, and build not (or (not ...)) of the kept arguments. -/
def mk_and (s : YState) (a : List Int) : Int × YState :=
  match int_array_sort a with
  | [] => (false_term, s)
  | x :: rest =>
    if x = false_term then (false_term, s)
    else mk_and_scan s x (if x = true_term then [] else [x]) rest

/-- Greatest common divisor of the coefficient numerators of a
polynomial, as a rational (monarray_common_factor over integer
polynomials; rationals.c is not under src/, modelled from the spec's
factoring rule, section 4.2.2). -/
def poly_common_factor (p : ArithPoly) : Rat :=
  ((p.foldr (fun m acc => Nat.gcd m.1.num.natAbs acc) 0 : Nat) : Rat)

/-- Division of every coefficient by a constant. -/
def poly_div_const (p : ArithPoly) (r : Rat) : ArithPoly :=
  p.map (fun m => (m.1 / r, m.2))

/-- Translation of mk_integer_polynomial_ite (term_api.c:2710): factor
the gcd a of the two integer polynomials out of (ite c p q), yielding
a * (ite c p/a q/a), when a is not one. -/
def mk_integer_polynomial_ite (s : YState) (c t e : Int) : Int × YState :=
  match term_desc s t, term_desc s e with
  | some (.arithT _ p), some (.arithT _ q) =>
    if p ≠ [] ∧ q ≠ [] then
      let a := Rat.num (poly_common_factor p) |>.gcd (Rat.num (poly_common_factor q))
      let a : Rat := ((a : Nat) : Rat)
      if a ≠ 1 ∧ a ≠ 0 then
        let rt := arith_term_of_buffer s int_type
          (arith_buffer_normalize (poly_div_const p a))
        let re := arith_term_of_buffer rt.2 int_type
          (arith_buffer_normalize (poly_div_const q a))
        let ri := ite_term re.2 c rt.1 re.1 int_type
        arith_term_of_buffer ri.2 int_type [(a, [(ri.1, 1)])]
      else ite_term s c t e int_type
    else ite_term s c t e int_type
  | _, _ => ite_term s c t e int_type

/-- Translation of mk_lifted_aritheq (term_api.c:3967): build
(ite c (t1 = t2) (t3 = t4)) through the eq0 atoms of the two
differences. -/
def mk_lifted_aritheq (s : YState) (c t1 t2 t3 t4 : Int) : Int × YState :=
  let s1 := mk_arith_diff s t1 t2
  let r1 := yices_arith_eq0_atom s1 s1.internal_arith
  let s2 := mk_arith_diff r1.2 t3 t4
  let r2 := yices_arith_eq0_atom s2 s2.internal_arith
  mk_bool_ite r2.2 c r1.1 r2.1

/-- Translation of mk_aritheq (term_api.c:4005): the cheap lift-if rules
over if-then-else operands, otherwise the eq0 atom of the
difference. -/
def mk_aritheq (s : YState) (t1 t2 : Int) : Int × YState :=
  match check_for_lift_if s t1 t2 with
  | some d => mk_lifted_aritheq s d.cond d.left1 d.left2 d.right1 d.right2
  | none =>
    let s1 := mk_arith_diff s t1 t2
    yices_arith_eq0_atom s1 s1.internal_arith

/-- Translation of mk_arithneq (term_api.c:4031). -/
def mk_arithneq (s : YState) (t1 t2 : Int) : Int × YState :=
  let r := mk_aritheq s t1 t2
  (mk_not r.2 r.1, r.2)

/-- Translation of mk_bveq (term_api.c:6604). -/
def mk_bveq (s : YState) (t1 t2 : Int) : Int × YState :=
  if t1 = t2 then (true_term, s)
  else if disequal_terms.disequal_bitvector_terms s t1 t2 then (false_term, s)
  else if t1 > t2 then bveq_atom s t2 t1
  else bveq_atom s t1 t2

/-- Translation of mk_bvneq (term_api.c:6631). -/
def mk_bvneq (s : YState) (t1 t2 : Int) : Int × YState :=
  if t1 = t2 then (false_term, s)
  else if disequal_terms.disequal_bitvector_terms s t1 t2 then (true_term, s)
  else
    let r := if t1 > t2 then bveq_atom s t2 t1 else bveq_atom s t1 t2
    (not_term r.1, r.2)

/-- Translation of yices_ite (term_api.c:2841): validation, supertype
computation, the boolean case through mk_bool_ite, the plain
simplifications, the flip of a negated condition, and the integer
polynomial factoring. -/
def yices_ite (s0 : YState) (cond thn els : Int) : Int × YState :=
  match check_good_term s0 cond with
  | (false, s) => (NULL_TERM, s)
  | (true, s) =>
  match check_good_term s thn with
  | (false, s) => (NULL_TERM, s)
  | (true, s) =>
  match check_good_term s els with
  | (false, s) => (NULL_TERM, s)
  | (true, s) =>
  match check_boolean_term s cond with
  | (false, s) => (NULL_TERM, s)
  | (true, s) =>
    let τ := super_type s.types (term_type s thn) (term_type s els)
    if τ = NULL_TYPE then
      (NULL_TERM, { s with error :=
        { s.error with code := .INCOMPATIBLE_TYPES,
                       term1 := thn, type1 := term_type s thn,
                       term2 := els, type2 := term_type s els } })
    else if is_boolean_term s thn then
      mk_bool_ite s cond thn els
    else if thn = els then (thn, s)
    else if cond = true_term then (thn, s)
    else if cond = false_term then (els, s)
    else
      let flip := term_kind s cond = .NOT_TERM
      let c1 := if flip then not_term_arg cond else cond
      let t1 := if flip then els else thn
      let e1 := if flip then thn else els
      if is_integer_type τ ∧ term_kind s t1 = .ARITH_TERM ∧
          term_kind s e1 = .ARITH_TERM then
        mk_integer_polynomial_ite s c1 t1 e1
      else
        ite_term s c1 t1 e1 τ

/-- Translation of yices_eq (term_api.c:2902): dispatch to the boolean,
arithmetic or bitvector equality, otherwise the generic path with the
disequality oracle and ordered interning. -/
def yices_eq (s0 : YState) (l r : Int) : Int × YState :=
  match check_good_eq s0 l r with
  | (false, s) => (NULL_TERM, s)
  | (true, s) =>
    if is_boolean_term s l then mk_iff s l r
    else if is_arithmetic_term s l then mk_aritheq s l r
    else if is_bitvector_term s l then mk_bveq s l r
    else if l = r then (true_term, s)
    else if disequal_terms s s.terms.length l r then (false_term, s)
    else if l > r then eq_term s r l
    else eq_term s l r

/-- Translation of yices_neq (term_api.c:2945). -/
def yices_neq (s0 : YState) (l r : Int) : Int × YState :=
  match check_good_eq s0 l r with
  | (false, s) => (NULL_TERM, s)
  | (true, s) =>
    if is_boolean_term s l then mk_xor s l r
    else if is_arithmetic_term s l then mk_arithneq s l r
    else if is_bitvector_term s l then mk_bvneq s l r
    else if l = r then (false_term, s)
    else if disequal_terms s s.terms.length l r then (true_term, s)
    else
      let r2 := if l > r then eq_term s r l else eq_term s l r
      (not_term r2.1, r2.2)

/-- Translation of yices_or (term_api.c:2985): validation, then the
empty case yields false, a singleton its element, the binary and the
n-ary cases go through mk_binary_or and mk_or. -/
def yices_or (s0 : YState) (arg : List Int) : Int × YState :=
  match check_nonneg s0 arg.length with
  | (false, s) => (NULL_TERM, s)
  | (true, s) =>
  match check_arity s arg.length with
  | (false, s) => (NULL_TERM, s)
  | (true, s) =>
  match check_good_terms s arg with
  | (false, s) => (NULL_TERM, s)
  | (true, s) =>
  match check_boolean_args s arg with
  | (false, s) => (NULL_TERM, s)
  | (true, s) =>
    match arg with
    | [] => (false_term, s)
    | [a] => (a, s)
    | [a, b] => mk_binary_or s a b
    | _ => mk_or s arg

/-- Translation of yices_and (term_api.c:3005): the dual of yices_or,
with the empty case yielding true. -/
def yices_and (s0 : YState) (arg : List Int) : Int × YState :=
  match check_nonneg s0 arg.length with
  | (false, s) => (NULL_TERM, s)
  | (true, s) =>
  match check_arity s arg.length with
  | (false, s) => (NULL_TERM, s)
  | (true, s) =>
  match check_good_terms s arg with
  | (false, s) => (NULL_TERM, s)
  | (true, s) =>
  match check_boolean_args s arg with
  | (false, s) => (NULL_TERM, s)
  | (true, s) =>
    match arg with
    | [] => (true_term, s)
    | [a] => (a, s)
    | [a, b] => mk_binary_and s a b
    | _ => mk_and s arg

/-- Translation of yices_not (term_api.c:3025). -/
def yices_not (s0 : YState) (arg : Int) : Int × YState :=
  match check_good_term s0 arg with
  | (false, s) => (NULL_TERM, s)
  | (true, s) =>
  match check_boolean_term s arg with
  | (false, s) => (NULL_TERM, s)
  | (true, s) => (mk_not s arg, s)

/-- Duplicate scan of yices_distinct (term_api.c:3172-3176) over the
sorted arguments. -/
def has_adjacent_dup : List Int → Bool
  | [] => false
  | [_] => false
  | a :: b :: rest => if b = a then true else has_adjacent_dup (b :: rest)

/-- Translation of yices_distinct (term_api.c:3144): two arguments
delegate to yices_neq; after validation a singleton yields true, the
bool or small-scalar cardinality case yields false, then sort,
return false on a duplicate, true when all pairwise demonstrably
disequal, otherwise the interned distinct node of the sorted
arguments. -/
def yices_distinct (s0 : YState) (arg : List Int) : Int × YState :=
  match arg with
  | [a, b] => yices_neq s0 a b
  | _ =>
    match check_good_distinct_term s0 arg with
    | (false, s) => (NULL_TERM, s)
    | (true, s) =>
      match arg with
      | [] => (NULL_TERM, s)
      | [_] => (true_term, s)
      | a0 :: _ =>
        let τ := term_type s a0
        let scalar_lt : Bool :=
          match type_desc s.types τ with
          | some (.scalarT k) => decide (k < arg.length)
          | _ => false
        if τ == bool_type || scalar_lt then (false_term, s)
        else
          let sorted := int_array_sort arg
          if has_adjacent_dup sorted then (false_term, s)
          else if pairwise_disequal_terms s s.terms.length sorted then
            (true_term, s)
          else distinct_term s sorted

/-- Value of a little-endian bit list. -/
def bitsValue : List Bool → Nat
  | [] => 0
  | b :: rest => (if b then 1 else 0) + 2 * bitsValue rest

/-- Modelled from the spec: a bit-vector logic buffer is constant when
every bit is a boolean constant (bvlogic_buffers.c is not under
src/). -/
def bvlogic_buffer_is_constant (b : List BBit) : Bool :=
  b.all (fun x => x == .btrue || x == .bfalse)

/-- Boolean values of a constant buffer. -/
def bvlogic_buffer_constant_bits (b : List BBit) : List Bool :=
  b.map (fun x => x == .btrue)

/-- Value of a constant buffer of width at most 64. -/
def bvlogic_buffer_get_constant64 (b : List BBit) : Nat :=
  bitsValue (bvlogic_buffer_constant_bits b)

/-- Modelled from the spec: the buffer is of the form
(select 0 t) ... (select k t) for a single term t; returns t, or -1
when the buffer has no such form (term_api.c:973-974 documents the
contract). -/
def bvlogic_buffer_get_var (b : List BBit) : Int :=
  match b with
  | BBit.bitOf x 0 :: _ =>
    if b.enum.all (fun p => p.2 == BBit.bitOf x p.1) then x else -1
  | _ => -1

/-- Modelled from the spec: shift left by k with zero fill (the low k
bits become false, the high k bits fall off; bit 0 is the low-order
bit). -/
def bvlogic_buffer_shift_left0 (b : List BBit) (k : Nat) : List BBit :=
  List.replicate (min k b.length) .bfalse ++ b.take (b.length - k)

/-- Modelled from the spec: logical shift right by k with zero fill. -/
def bvlogic_buffer_shift_right0 (b : List BBit) (k : Nat) : List BBit :=
  b.drop k ++ List.replicate (min k b.length) .bfalse

/-- Modelled from the spec: arithmetic shift right by k, replicating the
sign bit (the last, high-order bit). -/
def bvlogic_buffer_ashift_right (b : List BBit) (k : Nat) : List BBit :=
  b.drop k ++ List.replicate (min k b.length) (b.getLastD .bfalse)

/-- Translation of copy_term_to_internal_bvlogic_buffer
(term_api.c:6447): a bit-array term contributes its bits, a constant
its boolean bits, any other bitvector term the bit array of its
variable ((select i t) bits). -/
def copy_term_to_internal_bvlogic_buffer (s : YState) (t : Int) : YState :=
  match term_desc s t with
  | some (.bvlogicT bits) => { s with internal_bvlogic := bits }
  | some (.bvconstT _ bits) =>
    { s with internal_bvlogic :=
        bits.map (fun v => if v then BBit.btrue else BBit.bfalse) }
  | _ =>
    { s with internal_bvlogic :=
        (List.range (term_bitsize s t)).map (fun i => BBit.bitOf t i) }

/-- Translation of yices_bvlogic_term (term_api.c:5422): the internal
buffer becomes a term: error on the empty buffer, a constant interns a
bitvector constant, a full variable bit array returns the variable,
anything else interns a bit-array node. -/
def yices_bvlogic_term (s : YState) : Int × YState :=
  let b := s.internal_bvlogic
  if b.length = 0 then
    (NULL_TERM, { s with error := { s.error with code := .EMPTY_BITVECTOR } })
  else if bvlogic_buffer_is_constant b then
    bvconst_term s b.length (bvlogic_buffer_constant_bits b)
  else
    let x := bvlogic_buffer_get_var b
    if x ≥ 0 ∧ term_bitsize s x = b.length then (x, s)
    else bvlogic_term s b

/-- Translation of get_shift_amount (term_api.c:6429) on the value v of
the constant: the low-order 32-bit word is v mod 2^32; a nonzero
higher-order word forces the result n, and the low word is clamped at
n (NOT reduced modulo n). -/
def get_shift_amount (n : Nat) (v : Nat) : Nat :=
  if v / 2 ^ 32 ≠ 0 then n
  else if n ≤ v % 2 ^ 32 then n else v % 2 ^ 32

/-- Translation of yices_bvshl (term_api.c:6478): shift by a constant
amount through the bit-vector logic buffer, otherwise the opaque
binary BvShl node. -/
def yices_bvshl (s0 : YState) (t1 t2 : Int) : Int × YState :=
  match check_compatible_bv_terms s0 t1 t2 with
  | (false, s) => (NULL_TERM, s)
  | (true, s) =>
    if term_kind s t2 = .BV_CONST_TERM then
      match term_desc s t2 with
      | some (.bvconstT n bits) =>
        let s1 := copy_term_to_internal_bvlogic_buffer s t1
        let amt := get_shift_amount n (bitsValue bits)
        let s2 := { s1 with internal_bvlogic :=
          bvlogic_buffer_shift_left0 s1.internal_bvlogic amt }
        yices_bvlogic_term s2
      | _ => bvapply_term s BVOP_SHL t1 t2
    else bvapply_term s BVOP_SHL t1 t2

/-- Translation of yices_bvlshr (term_api.c:6501). -/
def yices_bvlshr (s0 : YState) (t1 t2 : Int) : Int × YState :=
  match check_compatible_bv_terms s0 t1 t2 with
  | (false, s) => (NULL_TERM, s)
  | (true, s) =>
    if term_kind s t2 = .BV_CONST_TERM then
      match term_desc s t2 with
      | some (.bvconstT n bits) =>
        let s1 := copy_term_to_internal_bvlogic_buffer s t1
        let amt := get_shift_amount n (bitsValue bits)
        let s2 := { s1 with internal_bvlogic :=
          bvlogic_buffer_shift_right0 s1.internal_bvlogic amt }
        yices_bvlogic_term s2
      | _ => bvapply_term s BVOP_LSHR t1 t2
    else bvapply_term s BVOP_LSHR t1 t2

/-- Translation of yices_bvashr (term_api.c:6524). -/
def yices_bvashr (s0 : YState) (t1 t2 : Int) : Int × YState :=
  match check_compatible_bv_terms s0 t1 t2 with
  | (false, s) => (NULL_TERM, s)
  | (true, s) =>
    if term_kind s t2 = .BV_CONST_TERM then
      match term_desc s t2 with
      | some (.bvconstT n bits) =>
        let s1 := copy_term_to_internal_bvlogic_buffer s t1
        let amt := get_shift_amount n (bitsValue bits)
        let s2 := { s1 with internal_bvlogic :=
          bvlogic_buffer_ashift_right s1.internal_bvlogic amt }
        yices_bvlogic_term s2
      | _ => bvapply_term s BVOP_ASHR t1 t2
    else bvapply_term s BVOP_ASHR t1 t2

/-- Translation of convert_bit_to_term (bit_term_conversion.c is not
under src/; modelled from the spec: a constant bit becomes the true or
false term, a select bit an interned boolean bit-select node). -/
def convert_bit_to_term (s : YState) (b : BBit) : Int × YState :=
  match b with
  | .btrue => (true_term, s)
  | .bfalse => (false_term, s)
  | .bitOf t i => hashCons s (.bitT t i)

/-- Translation of bvlogic_buffer_get_bvarray (term_api.c:952):
translate each bit into a boolean term and intern the bit-array
node. -/
def bvlogic_buffer_get_bvarray (s : YState) (b : List BBit) : Int × YState :=
  let r := b.foldl
    (fun (acc : List Int × YState) bit =>
      let c := convert_bit_to_term acc.2 bit
      (acc.1 ++ [c.1], c.2))
    ([], s)
  bvarray_term r.2 r.1

/-- Translation of bvlogic_buffer_get_bvconst (term_api.c:940). -/
def bvlogic_buffer_get_bvconst (s : YState) (b : List BBit) : Int × YState :=
  bvconst_term s b.length (bvlogic_buffer_constant_bits b)

/-- Translation of bvlogic_buffer_get_term (term_api.c:977): builds the
term t described by the buffer (a constant, the underlying variable,
or a bit array), resets the buffer, and then returns the BITSIZE n
instead of t (the final statement of the C function is return n). -/
def bvlogic_buffer_get_term (s : YState) (b : List BBit) : Int × YState :=
  let n := b.length
  if bvlogic_buffer_is_constant b then
    let r := if n ≤ 64 then bv64_constant s n (bvlogic_buffer_get_constant64 b)
             else bvlogic_buffer_get_bvconst s b
    ((n : Int), r.2)
  else
    let x := bvlogic_buffer_get_var b
    let r := if x < 0 ∨ term_bitsize s x ≠ n then bvlogic_buffer_get_bvarray s b
             else (x, s)
    ((n : Int), r.2)

/-- Layout of the buffer pools relevant to cleanup: the static list
header of the (wide) bitvector arithmetic buffer list, the header of
the 64-bit variant, and the nodes of the 64-bit list in order.  Every
list is circular and doubly linked (dl_lists.h is not under src/;
header and nodes are distinct heap objects, identified here by
numbers). -/
structure BufferLists where
  header64 : Nat
  headerA : Nat
  elems64 : List Nat

/-- Well-formedness of the layout: the two list headers are distinct
objects and the header of the wide list is not a node of the 64-bit
list (headers are distinct static variables and nodes are separate
heap allocations). -/
def dl_wf (L : BufferLists) : Prop :=
  L.headerA ≠ L.header64 ∧ L.headerA ∉ L.elems64

/-- Successor pointer of the circular 64-bit list: the header points to
the first node, each node to the next, the last node back to the
header. -/
def dl_next (L : BufferLists) (x : Nat) : Nat :=
  if x = L.header64 then L.elems64.headD L.header64
  else
    match L.elems64.indexOf? x with
    | some i => (L.elems64.drop (i + 1)).headD L.header64
    | none => x

/-- Iteration of the cleanup loop of free_bvarith64_buffer_list
(term_api.c:332): starting from elem, follow the next pointers and
stop when the sentinel is reached; true means the loop terminated
within the given number of steps.  The loop body frees the node after
reading its next pointer, so the traversal order is exactly the chain
of next pointers. -/
def free_list_loop (L : BufferLists) (sentinel : Nat) : Nat → Nat → Bool
  | 0, _ => false
  | fuel + 1, elem =>
    if elem = sentinel then true
    else free_list_loop L sentinel fuel (dl_next L elem)

/-- Translation of the loop control of free_bvarith64_buffer_list
(term_api.c:332-344): the iteration starts at
bvarith64_buffer_list.next but the loop condition compares against
the header of the OTHER list, bvarith_buffer_list (line 336). -/
def free_bvarith64_buffer_list_stops (L : BufferLists) (fuel : Nat) : Bool :=
  free_list_loop L L.headerA fuel (dl_next L L.header64)

/-- Loop control of the correct cleanups (free_arith_buffer_list,
term_api.c:214, and the wide free_bvarith_buffer_list, line 273),
which compare against the header of the list being drained. -/
def free_list_stops_own (L : BufferLists) (fuel : Nat) : Bool :=
  free_list_loop L L.header64 fuel (dl_next L L.header64)

/-- The set of heap objects the 64-bit cleanup traversal can visit: the
nodes of the 64-bit list and its own header. -/
def in_cycle (L : BufferLists) (x : Nat) : Prop :=
  x = L.header64 ∨ x ∈ L.elems64

end YicesSpec

namespace EfSkolemize

/-- Deep embedding of the terms the skolemizer traverses
(ef_skolemize.c).  A reference of negative polarity is wrapped in negS;
opposite_term adds or removes the wrapper, matching the polarity bit
flip.  atom covers the atomic kinds (constants, uninterpreted terms and
variables), with a flag telling whether the atom is boolean; appS
stands for the remaining composite kinds, whose children are rebuilt
generically. -/
inductive STerm where
  | atom (id : Nat) (isB : Bool)
  | iteS (c a b : STerm)
  | eqS (a b : STerm)
  | orS (args : List STerm)
  | forallS (vars : List Nat) (body : STerm)
  | appS (args : List STerm)
  | negS (t : STerm)

/-- Positive version of a reference. -/
def unsigned_term : STerm → STerm
  | .negS u => u
  | t => t

/-- Polarity test. -/
def is_neg_term : STerm → Bool
  | .negS _ => true
  | _ => false

/-- Polarity flip. -/
def opposite_term : STerm → STerm
  | .negS u => u
  | t => .negS t

/-- Translation of the term_is_atomic test (term_explorer.c is not under
src/; atomic terms are the leaves). -/
def term_is_atomic : STerm → Bool
  | .atom _ _ => true
  | _ => false

/-- Whether a term is boolean (type information modelled structurally:
equalities, disjunctions, quantifiers and negations are boolean, an
atom carries its flag, an if-then-else has the type of its branches). -/
def sk_is_bool : STerm → Bool
  | .atom _ b => b
  | .iteS _ a _ => sk_is_bool a
  | .eqS _ _ => true
  | .orS _ => true
  | .forallS _ _ => true
  | .appS _ => false
  | .negS _ => true

/-- Modelled from the spec: mk_implies of the term manager
(term_manager.c is not under src/): implies(a,b) is (or (not a) b),
section 4.2.1. -/
def mk_implies (a b : STerm) : STerm := .orS [opposite_term a, b]

/-- Modelled from the spec: n-ary and is the negated or of the negated
arguments. -/
def mk_and (args : List STerm) : STerm := .negS (.orS (args.map opposite_term))

/-- Modelled from the spec: n-ary or node. -/
def mk_or (args : List STerm) : STerm := .orS args

/-- Children of a composite, as term_child enumerates them. -/
def term_children : STerm → List STerm
  | .iteS c a b => [c, a, b]
  | .eqS a b => [a, b]
  | .orS args => args
  | .forallS _ body => [body]
  | .appS args => args
  | .atom _ _ => []
  | .negS u => term_children u

/-- Translation of ef_update_composite (ef_skolemize.c:68): rebuild a
composite from its rewritten children through the canonical
constructors. -/
def ef_update_composite (v : STerm) (cs : List STerm) : STerm :=
  match v, cs with
  | .eqS _ _, [a, b] => .eqS a b
  | .orS _, _ => mk_or cs
  | .iteS _ _ _, [c, a, b] => .iteS c a b
  | _, _ => .appS cs

/-- Capture-naive substitution of variables by terms, the effect of
init_term_subst and apply_term_subst (term_substitution.c is not under
src/, modelled from the spec, section 4.4). -/
def subst_vars (σ : List (Nat × STerm)) : STerm → STerm
  | .atom id b =>
    match σ.lookup id with
    | some r => r
    | none => .atom id b
  | .iteS c a b => .iteS (subst_vars σ c) (subst_vars σ a) (subst_vars σ b)
  | .eqS a b => .eqS (subst_vars σ a) (subst_vars σ b)
  | .orS args => .orS (args.attach.map (fun a => subst_vars σ a.1))
  | .forallS vars body => .forallS vars (subst_vars σ body)
  | .appS args => .appS (args.attach.map (fun a => subst_vars σ a.1))
  | .negS u => .negS (subst_vars σ u)
termination_by t => sizeOf t
decreasing_by
  all_goals simp_wf
  all_goals try (have h := List.sizeOf_lt_of_mem a.2)
  all_goals omega

/-- State of the skolemizer: the two flattening flags, the stack of
in-scope universal variables, and the analyzer pieces the traversal
writes (the existentials map and the skolem counter). -/
structure SkState where
  flatten_ite : Bool
  flatten_iff : Bool
  uvars : List Nat
  existentials : List (Nat × Nat)
  num_skolem : Nat
deriving DecidableEq

/-- Translation of init_ef_skolemize (ef_skolemize.c:39): stores the
flags and initializes the empty uvars vector. -/
def init_ef_skolemize (f_ite f_iff : Bool) : SkState :=
  { flatten_ite := f_ite, flatten_iff := f_iff, uvars := [],
    existentials := [], num_skolem := 0 }

/-- Result of ef_skolem_term: the fresh function and its application to
the universals. -/
structure EfSkolem where
  func : Nat
  fapp : STerm

/-- Translation of ef_skolem_term (ef_skolemize.c:168): bump the skolem
counter, mint a fresh function (identified by the counter value) and
apply it to the current universals. -/
def ef_skolem_term (sk : SkState) (x : Nat) : EfSkolem × SkState :=
  let n := sk.num_skolem + 1
  ({ func := n,
     fapp := .appS (.atom n false :: sk.uvars.map (fun u => .atom u false)) },
   { sk with num_skolem := n })

/-- Translation of ef_skolem_body (ef_skolemize.c:203) applied to
(not (forall vars body0)) where body is the opposite of body0: with no
universals in scope each variable maps to itself; otherwise each
variable gets a fresh skolem application substituted into the body. -/
def ef_skolem_body (sk : SkState) (vars : List Nat) (body : STerm) :
    STerm × SkState :=
  if sk.uvars.isEmpty then
    (body, { sk with existentials := sk.existentials ++ vars.map (fun x => (x, x)) })
  else
    let step := vars.foldl
      (fun (acc : List (Nat × STerm) × SkState) x =>
        let r := ef_skolem_term acc.2 x
        (acc.1 ++ [(x, r.1.fapp)],
         { r.2 with existentials := r.2.existentials ++ [(x, r.1.func)] }))
      ([], sk)
    (subst_vars step.1 body, step.2)

/-- Translation of ef_skolemize_term (ef_skolemize.c:265), with an
explicit recursion bound (the C recursion is unbounded; exhausted fuel
returns the term unchanged).  The traversal matches the C dispatch:
atoms unchanged; under negative polarity the flattening rewrites of
ite and iff, the de-Morgan flattening of or, and skolemization of the
negated forall; under positive polarity the flattening rewrites and
the push/recurse/pop of forall (lines 418-435); anything unhandled
rebuilds its children through ef_update_composite. -/
def ef_skolemize_term : Nat → SkState → STerm → STerm × SkState
  | 0, sk, t => (t, sk)
  | fuel + 1, sk, t =>
    if term_is_atomic (unsigned_term t) then (t, sk)
    else if is_neg_term t then
      match unsigned_term t with
      | .iteS c a b =>
        if sk.flatten_ite && sk_is_bool a then
          let u := mk_implies c (opposite_term a)
          let v := mk_implies (opposite_term c) (opposite_term b)
          let ru := ef_skolemize_term fuel sk u
          let rv := ef_skolemize_term fuel ru.2 v
          (mk_and [ru.1, rv.1], rv.2)
        else
          let rr := (term_children (.iteS c a b)).foldl
            (fun (acc : List STerm × SkState) u =>
              let r := ef_skolemize_term fuel acc.2 u
              (acc.1 ++ [r.1], r.2)) ([], sk)
          (opposite_term (ef_update_composite (.iteS c a b) rr.1), rr.2)
      | .eqS a b =>
        if sk.flatten_iff && sk_is_bool a then
          let u := opposite_term (mk_implies a b)
          let v := opposite_term (mk_implies b a)
          let ru := ef_skolemize_term fuel sk u
          let rv := ef_skolemize_term fuel ru.2 v
          (mk_or [ru.1, rv.1], rv.2)
        else
          let rr := (term_children (.eqS a b)).foldl
            (fun (acc : List STerm × SkState) u =>
              let r := ef_skolemize_term fuel acc.2 u
              (acc.1 ++ [r.1], r.2)) ([], sk)
          (opposite_term (ef_update_composite (.eqS a b) rr.1), rr.2)
      | .orS args =>
        let rr := args.foldl
          (fun (acc : List STerm × SkState) u =>
            let r := ef_skolemize_term fuel acc.2 (opposite_term u)
            (acc.1 ++ [r.1], r.2)) ([], sk)
        (mk_and rr.1, rr.2)
      | .forallS vars body =>
        let rb := ef_skolem_body sk vars (opposite_term body)
        ef_skolemize_term fuel rb.2 rb.1
      | v =>
        let rr := (term_children v).foldl
          (fun (acc : List STerm × SkState) u =>
            let r := ef_skolemize_term fuel acc.2 u
            (acc.1 ++ [r.1], r.2)) ([], sk)
        (opposite_term (ef_update_composite v rr.1), rr.2)
    else
      match t with
      | .iteS c a b =>
        if sk.flatten_ite && sk_is_bool a then
          let u := mk_implies c a
          let v := mk_implies (opposite_term c) b
          let ru := ef_skolemize_term fuel sk u
          let rv := ef_skolemize_term fuel ru.2 v
          (mk_and [ru.1, rv.1], rv.2)
        else
          let rr := (term_children t).foldl
            (fun (acc : List STerm × SkState) u =>
              let r := ef_skolemize_term fuel acc.2 u
              (acc.1 ++ [r.1], r.2)) ([], sk)
          (ef_update_composite t rr.1, rr.2)
      | .eqS a b =>
        if sk.flatten_iff && sk_is_bool a then
          let u := mk_implies a b
          let v := mk_implies b a
          let ru := ef_skolemize_term fuel sk u
          let rv := ef_skolemize_term fuel ru.2 v
          (mk_and [ru.1, rv.1], rv.2)
        else
          let rr := (term_children t).foldl
            (fun (acc : List STerm × SkState) u =>
              let r := ef_skolemize_term fuel acc.2 u
              (acc.1 ++ [r.1], r.2)) ([], sk)
          (ef_update_composite t rr.1, rr.2)
      | .forallS vars body =>
        let sk1 := { sk with uvars := sk.uvars ++ vars }
        let r := ef_skolemize_term fuel sk1 body
        (r.1, { r.2 with uvars := r.2.uvars.take (r.2.uvars.length - vars.length) })
      | v =>
        let rr := (term_children v).foldl
          (fun (acc : List STerm × SkState) u =>
            let r := ef_skolemize_term fuel acc.2 u
            (acc.1 ++ [r.1], r.2)) ([], sk)
        (ef_update_composite v rr.1, rr.2)

/-- Translation of ef_skolemize (ef_skolemize.c:462). -/
def ef_skolemize (fuel : Nat) (sk : SkState) (t : STerm) : STerm × SkState :=
  ef_skolemize_term fuel sk t

end EfSkolemize

namespace YicesSpec

/-- Conjunction of the validation checks of yices_ite
(term_api.c:2846-2864), evaluated on the pre-call state: three good
terms, a boolean condition, and compatible branch types.  The checks
read only the tables, never the error record, so their outcome on the
threaded state equals their outcome on the initial one. -/
def yices_ite_validates (s : YState) (cond thn els : Int) : Bool :=
  !bad_term s cond && !bad_term s thn && !bad_term s els &&
    is_boolean_term s cond &&
    (super_type s.types (term_type s thn) (term_type s els) != NULL_TYPE)

/-- Concrete manager state used by the witnesses and counterexamples:
the base types plus bitvector types of widths 1, 2 and 8 and a scalar
type of cardinality 2; the term table holds the true term, two boolean
uninterpreteds u (ref 2) and v (ref 4), the or-term c = (or u v)
(ref 6), the equality t = (eq u v) (ref 8), three width-1 bitvector
uninterpreteds (refs 10, 12, 14), a width-2 uninterpreted x (ref 16),
the width-2 constant 0b11 (ref 18), a width-8 uninterpreted (ref 20),
the width-8 constant 4 (ref 22), an integer uninterpreted n (ref 24),
three scalar uninterpreteds (refs 26, 28, 30), the integer polynomials
2n+4 (ref 32) and 2n+6 (ref 34), and the integer if-then-else
(ite u (2n+4) (2n+6)) (ref 36). -/
def SA : YState :=
  { types := [.boolT, .intT, .realT, .bitvectorT 1, .bitvectorT 2,
              .bitvectorT 8, .scalarT 2],
    terms :=
      [.trueT,
       .uninterpretedT 0 1,
       .uninterpretedT 0 2,
       .orT [2, 4],
       .eqT 2 4,
       .uninterpretedT 3 5,
       .uninterpretedT 3 6,
       .uninterpretedT 3 7,
       .uninterpretedT 4 8,
       .bvconstT 2 [true, true],
       .uninterpretedT 5 10,
       .bvconstT 8 [false, false, true, false, false, false, false, false],
       .uninterpretedT 1 12,
       .uninterpretedT 6 13,
       .uninterpretedT 6 14,
       .uninterpretedT 6 15,
       .arithT 1 [(2, [(24, 1)]), (4, [])],
       .arithT 1 [(2, [(24, 1)]), (6, [])],
       .iteT 2 32 34 1],
    error := no_error,
    internal_arith := [],
    internal_bvlogic := [] }

/-- Statement vocabulary: the type table, the term table and the two
internal buffers of s2 equal those of s1 (only the error record may
differ). -/
def tables_unchanged (s1 s2 : YState) : Prop :=
  s2.types = s1.types ∧ s2.terms = s1.terms ∧
  s2.internal_arith = s1.internal_arith ∧
  s2.internal_bvlogic = s1.internal_bvlogic

/-- Statement vocabulary: the call made on state s was rejected: the
null sentinel is returned, the tables and buffers are exactly those of
s, and the error record was set. -/
def rejects (s : YState) (r : Int × YState) : Prop :=
  r.1 = NULL_TERM ∧ tables_unchanged s r.2 ∧
  r.2.error.code ≠ ErrorCode.NO_ERROR

end YicesSpec

namespace YicesSpec

/-- A good term reference is nonnegative. -/
theorem good_term_nonneg (s : YState) (t : Int) (h : bad_term s t = false) :
    0 ≤ t := by
  by_cases ht : t < 0
  · unfold bad_term term_desc at h
    simp [ht] at h
  · omega

/-- A good type handle is nonnegative (hence not NULL_TYPE). -/
theorem good_type_nonneg (types : List TypeDesc) (τ : Int)
    (h : bad_type types τ = false) : 0 ≤ τ := by
  by_cases ht : τ < 0
  · unfold bad_type type_desc at h
    simp [ht] at h
  · omega

/-- On good terms, the NOT_TERM kind is exactly negative polarity. -/
theorem term_kind_not_iff (s : YState) (t : Int) (h : bad_term s t = false) :
    term_kind s t = .NOT_TERM ↔ t % 2 = 1 := by
  constructor
  · intro hk
    by_contra hm
    have hb : (t % 2 == 1) = false := by simp [hm]
    have hd : ∃ d, term_desc s t = some d := by
      unfold bad_term at h
      cases td : term_desc s t with
      | none => rw [td] at h; simp at h
      | some d => exact ⟨d, rfl⟩
    obtain ⟨d, hd⟩ := hd
    unfold term_kind at hk
    rw [hb] at hk
    simp only [Bool.false_eq_true, if_false, hd] at hk
    cases d <;> simp at hk
  · intro hm
    unfold term_kind
    have hb : (t % 2 == 1) = true := by simp [hm]
    rw [hb]
    simp

/-- C10: yices_or accepts the empty argument list and returns the false
term, and yices_and returns the true term, with no error raised and
the state unchanged. -/
theorem c10_empty_connectives_neutral (s : YState) :
    yices_or s [] = (false_term, s) ∧ yices_and s [] = (true_term, s) := by
  constructor <;> rfl

/-- C4: on a valid boolean term, yices_not returns the polarity flip of
the reference, the underlying index is unchanged, and the state (in
particular the term table) is returned untouched, so no node is
allocated. -/
theorem c4_negation_is_index_preserving_flip (s : YState) (t : Int)
    (hgood : bad_term s t = false) (hbool : is_boolean_term s t = true) :
    yices_not s t = (opposite_term t, s) ∧
      term_index (opposite_term t) = term_index t := by
  have hnn := good_term_nonneg s t hgood
  constructor
  · unfold yices_not
    have h1 : check_good_term s t = (true, s) := by
      unfold check_good_term
      simp [hgood]
    have h2 : check_boolean_term s t = (true, s) := by
      unfold check_boolean_term
      simp [hbool]
    rw [h1]
    dsimp only
    rw [h2]
    dsimp only
    have hmk : mk_not s t = opposite_term t := by
      by_cases h0 : t = true_term
      · subst h0; rfl
      · by_cases hf : t = false_term
        · subst hf; rfl
        · unfold mk_not bool_negate
          rw [if_neg h0, if_neg hf]
          by_cases hm : t % 2 = 1
          · rw [if_pos ((term_kind_not_iff s t hgood).mpr hm)]
            unfold not_term_arg unsigned_term opposite_term
            simp [hm]
          · rw [if_neg (fun hc => hm ((term_kind_not_iff s t hgood).mp hc))]
            rfl
    rw [hmk]
  · unfold term_index opposite_term
    rcases Int.emod_two_eq_zero_or_one t with hm | hm
    · simp only [hm]
      norm_num
      omega
    · simp only [hm]
      norm_num
      omega

/-- C4 witness: the boolean uninterpreted term of reference 2 in the
concrete state SA. -/
theorem c4_witness :
    bad_term SA 2 = false ∧ is_boolean_term SA 2 = true ∧
      (yices_not SA 2 = (opposite_term 2, SA) ∧
        term_index (opposite_term 2) = term_index 2) :=
  ⟨by decide, by decide,
   c4_negation_is_index_preserving_flip SA 2 (by decide) (by decide)⟩

/-- C1: on the nonempty constant buffer [true] over the concrete state
SA, bvlogic_buffer_get_term interns the constructed bitvector constant
into the term table but returns 1, the bitsize, which is the reference
of the false term: not a bitvector term at all, let alone one of
bitsize 1. -/
theorem c1_get_term_returns_bitsize_not_term :
    (bvlogic_buffer_get_term SA [BBit.btrue]).1 = 1 ∧
    (bvlogic_buffer_get_term SA [BBit.btrue]).2.terms =
      SA.terms ++ [.bvconstT 1 [true]] ∧
    is_bitvector_term (bvlogic_buffer_get_term SA [BBit.btrue]).2 1 = false ∧
    term_bitsize (bvlogic_buffer_get_term SA [BBit.btrue]).2 1 = 0 := by
  decide

/-- C5 counterexample: over SA, with c the or-term of reference 6 and
the opposite boolean pair x = 8 (an equality term) and y = 9 (its
negation), yices_ite (not c) x y simplifies through the iff rewrite to
the interned equality (eq 7 8) of reference 38, while the subsequent
yices_ite c y x produces the different interned equality (eq 6 9) of
reference 40: the two calls do not return the same term reference. -/
theorem c5_counterexample_negated_condition :
    (yices_ite SA (opposite_term 6) 8 9).1 = 38 ∧
    (yices_ite (yices_ite SA (opposite_term 6) 8 9).2 6 9 8).1 = 40 ∧
    (yices_ite SA (opposite_term 6) 8 9).1 ≠
      (yices_ite (yices_ite SA (opposite_term 6) 8 9).2 6 9 8).1 := by
  decide

/-- C7 counterexample: the three distinct width-1 bitvector
uninterpreteds of SA (references 10, 12, 14) share the finite type
BitVector(1) of cardinality 2 < 3, yet yices_distinct interns and
returns a distinct node instead of the false term: the cardinality
collapse in the source tests only the bool and scalar types. -/
theorem c7_counterexample_bitvector_cardinality :
    type_card (TypeDesc.bitvectorT 1) = some 2 ∧
    (yices_distinct SA [10, 12, 14]).1 ≠ false_term ∧
    term_desc (yices_distinct SA [10, 12, 14]).2
        (yices_distinct SA [10, 12, 14]).1 =
      some (.distinctT [10, 12, 14]) := by
  decide

/-- C6 counterexample: at width 2 with the constant shift amount 3, the
source clamps the amount to 2 (get_shift_amount) instead of reducing
it modulo 2 to 1: yices_bvshl of the width-2 uninterpreted x
(reference 16) by 0b11 (reference 18) produces the all-zero constant,
not the bit-array x shifted left by 3 mod 2 = 1. -/
theorem c6_counterexample_amount_not_modulo :
    get_shift_amount 2 (bitsValue [true, true]) = 2 ∧
    bitsValue [true, true] % 2 = 1 ∧
    term_desc (yices_bvshl SA 16 18).2 (yices_bvshl SA 16 18).1 =
      some (.bvconstT 2 [false, false]) ∧
    TermDesc.bvconstT 2 [false, false] ≠
      .bvlogicT (bvlogic_buffer_shift_left0
        [.bitOf 16 0, .bitOf 16 1] (bitsValue [true, true] % 2)) := by
  decide

end YicesSpec

namespace YicesSpec

/-- The successor pointer never leaves the traversal cycle of the
64-bit list. -/
theorem dl_next_in_cycle (L : BufferLists) (x : Nat) (h : in_cycle L x) :
    in_cycle L (dl_next L x) := by
  unfold dl_next
  by_cases hx : x = L.header64
  · rw [if_pos hx]
    cases he : L.elems64 with
    | nil => left; simp [he]
    | cons a as => right; simp [he]
  · rw [if_neg hx]
    cases hi : L.elems64.indexOf? x with
    | none => exact h
    | some i =>
      cases hd : L.elems64.drop (i + 1) with
      | nil => left; simp [hd]
      | cons b bs =>
        right
        have hb : b ∈ L.elems64.drop (i + 1) := by simp [hd]
        simp only [hd, List.headD_cons]
        exact List.mem_of_mem_drop hb

/-- The cleanup loop with the wrong sentinel never reaches it from
inside the cycle. -/
theorem free_loop_wrong_sentinel (L : BufferLists) (h : dl_wf L) :
    ∀ (fuel : Nat) (x : Nat), in_cycle L x →
      free_list_loop L L.headerA fuel x = false := by
  intro fuel
  induction fuel with
  | zero => intro x _; rfl
  | succ n ih =>
    intro x hx
    unfold free_list_loop
    have hne : x ≠ L.headerA := by
      rcases hx with hx | hx
      · rw [hx]; exact fun hc => h.1 hc.symm
      · exact fun hc => h.2 (hc ▸ hx)
    rw [if_neg hne]
    exact ih (dl_next L x) (dl_next_in_cycle L x hx)

/-- C2: for every layout of the buffer pool (any contents of the 64-bit
bitvector arithmetic buffer list) the cleanup loop of
free_bvarith64_buffer_list never terminates, because its sentinel is
the header of the other, wide bitvector list (term_api.c:336), which
the traversal of the circular 64-bit list can never reach; so the
teardown neither terminates nor leaves the list empty.  By contrast
the loop shape of the correct cleanups, which compare against the
drained list own header, does stop (shown on a one-element list). -/
theorem c2_free_bvarith64_cleanup_never_stops (L : BufferLists)
    (h : dl_wf L) :
    (∀ fuel : Nat, free_bvarith64_buffer_list_stops L fuel = false) ∧
      free_list_stops_own ⟨0, 1, [2]⟩ 3 = true := by
  constructor
  · intro fuel
    unfold free_bvarith64_buffer_list_stops
    exact free_loop_wrong_sentinel L h fuel (dl_next L L.header64)
      (dl_next_in_cycle L L.header64 (Or.inl rfl))
  · decide

/-- C2 witness: the concrete layout with header 0 of the 64-bit list,
header 1 of the wide list, and a single buffer node 2. -/
theorem c2_witness :
    dl_wf ⟨0, 1, [2]⟩ ∧
      free_bvarith64_buffer_list_stops ⟨0, 1, [2]⟩ 5 = false :=
  ⟨⟨by decide, by decide⟩,
   (c2_free_bvarith64_cleanup_never_stops ⟨0, 1, [2]⟩
     ⟨by decide, by decide⟩).1 5⟩

end YicesSpec

namespace YicesSpec

/-- Coefficient lookup distributes over buffer concatenation. -/
theorem coeff_of_append (p q : ArithPoly) (pp : List (Int × Nat)) :
    coeff_of (p ++ q) pp = coeff_of p pp + coeff_of q pp := by
  unfold coeff_of
  rw [List.map_append, List.sum_append]

/-- Coefficient lookup negates over buffer negation. -/
theorem coeff_of_negate (p : ArithPoly) (pp : List (Int × Nat)) :
    coeff_of (poly_negate p) pp = -coeff_of p pp := by
  unfold coeff_of poly_negate
  induction p with
  | nil => simp
  | cons m rest ih =>
    simp only [List.map_cons, List.sum_cons]
    rw [ih]
    by_cases hm : m.2 = pp <;> simp [hm] <;> ring

/-- The difference of a buffer with itself normalizes to the zero
polynomial. -/
theorem normalize_self_diff (p : ArithPoly) :
    arith_buffer_normalize (p ++ poly_negate p) = [] := by
  unfold arith_buffer_normalize
  rw [List.filterMap_eq_nil]
  intro pp hpp
  have hz : coeff_of (p ++ poly_negate p) pp = 0 := by
    rw [coeff_of_append, coeff_of_negate]
    ring
  simp [hz]

/-- The eq0 atom of the difference t - t is the true term, and the
internal buffer is left holding the normalized (empty) polynomial. -/
theorem yices_arith_eq0_atom_self_diff (s : YState) (t : Int) :
    yices_arith_eq0_atom (mk_arith_diff s t t)
        (mk_arith_diff s t t).internal_arith =
      (true_term, { s with internal_arith := [] }) := by
  unfold yices_arith_eq0_atom mk_arith_diff
  dsimp only
  rw [normalize_self_diff]
  rfl

/-- The lifted equality (ite c (a = a) (b = b)) collapses to true. -/
theorem mk_lifted_aritheq_self (s : YState) (c a b : Int) :
    mk_lifted_aritheq s c a a b b =
      (true_term, { s with internal_arith := [] }) := by
  unfold mk_lifted_aritheq
  dsimp only
  rw [yices_arith_eq0_atom_self_diff s a]
  dsimp only
  rw [yices_arith_eq0_atom_self_diff { s with internal_arith := [] } b]
  dsimp only
  unfold mk_bool_ite
  rw [if_pos rfl]

/-- mk_aritheq of a term with itself yields the true term in both the
lift-if branch and the plain difference branch. -/
theorem mk_aritheq_self (s : YState) (t : Int) :
    mk_aritheq s t t = (true_term, { s with internal_arith := [] }) := by
  unfold mk_aritheq
  cases hl : check_for_lift_if s t t with
  | none =>
    dsimp only
    exact yices_arith_eq0_atom_self_diff s t
  | some d =>
    have hd : d.left2 = d.left1 ∧ d.right2 = d.right1 := by
      unfold check_for_lift_if at hl
      by_cases hk : term_kind s t = .ITE_TERM
      · rw [if_pos hk, if_pos hk] at hl
        cases ht : term_desc s t with
        | none =>
          rw [ht] at hl
          simp at hl
        | some dd =>
          rw [ht] at hl
          cases dd <;> simp at hl
          rw [← hl]
          exact ⟨rfl, rfl⟩
      · rw [if_neg hk, if_neg hk] at hl
        simp at hl
    dsimp only
    rw [hd.1, hd.2]
    exact mk_lifted_aritheq_self s d.cond d.left1 d.right1

/-- On a good term whose type handle is itself good, the validation of
yices_eq on the pair (t, t) passes with no state change. -/
theorem check_good_eq_refl (s : YState) (t : Int)
    (hgood : bad_term s t = false)
    (hτ : bad_type s.types (term_type s t) = false) :
    check_good_eq s t t = (true, s) := by
  have hτn := good_type_nonneg s.types (term_type s t) hτ
  have h1 : check_good_term s t = (true, s) := by
    unfold check_good_term
    simp [hgood]
  have h2 : check_compatible_terms s t t = (true, s) := by
    unfold check_compatible_terms
    have hcomp : compatible_types s.types (term_type s t) (term_type s t)
        = true := by
      unfold compatible_types super_type
      simp [hτ, NULL_TYPE, bne_iff_ne]
      omega
    simp [hcomp]
  unfold check_good_eq andCheck
  rw [h1]
  dsimp only
  rw [h1]
  dsimp only
  exact h2

/-- C9: equality is reflexive at every sort: for every valid term t with
a good type handle, yices_eq t t returns the true term; this covers
the boolean alias to iff, the arithmetic path (including the lift-if
decomposition when t is an if-then-else), the bitvector path and the
generic path. -/
theorem c9_eq_reflexive (s : YState) (t : Int)
    (hgood : bad_term s t = false)
    (hτ : bad_type s.types (term_type s t) = false) :
    (yices_eq s t t).1 = true_term := by
  unfold yices_eq
  rw [check_good_eq_refl s t hgood hτ]
  dsimp only
  by_cases hb : is_boolean_term s t = true
  · rw [if_pos hb]
    unfold mk_iff
    rw [if_pos rfl]
  · rw [if_neg hb]
    by_cases ha : is_arithmetic_term s t = true
    · rw [if_pos ha]
      rw [mk_aritheq_self]
    · rw [if_neg ha]
      by_cases hv : is_bitvector_term s t = true
      · rw [if_pos hv]
        unfold mk_bveq
        rw [if_pos rfl]
      · rw [if_neg hv]
        rw [if_pos rfl]

/-- C9 witness: the integer if-then-else term of reference 36 in SA,
which exercises the lift-if decomposition of mk_aritheq. -/
theorem c9_witness :
    bad_term SA 36 = false ∧ bad_type SA.types (term_type SA 36) = false ∧
      (yices_eq SA 36 36).1 = true_term :=
  ⟨by decide, by decide, c9_eq_reflexive SA 36 (by decide) (by decide)⟩

end YicesSpec

namespace YicesSpec

/-- A passing check_positive returns the state unchanged. -/
theorem check_positive_id (s : YState) (n : Nat)
    (h : (check_positive s n).1 = true) : check_positive s n = (true, s) := by
  unfold check_positive at *
  by_cases hn : n = 0
  · simp [hn] at h
  · simp [hn]

/-- A passing check_arity returns the state unchanged. -/
theorem check_arity_id (s : YState) (n : Nat)
    (h : (check_arity s n).1 = true) : check_arity s n = (true, s) := by
  unfold check_arity at *
  by_cases hn : n > YICES_MAX_ARITY
  · simp [hn] at h
  · simp [hn]

/-- A passing check_good_terms_from returns the state unchanged. -/
theorem check_good_terms_from_id (s : YState) :
    ∀ (l : List Int) (i : Nat),
      (check_good_terms_from s i l).1 = true →
      check_good_terms_from s i l = (true, s) := by
  intro l
  induction l with
  | nil => intro i _; rfl
  | cons t rest ih =>
    intro i h
    unfold check_good_terms_from at h ⊢
    by_cases hb : bad_term s t = true
    · rw [if_pos hb] at h
      simp at h
    · rw [if_neg hb] at h ⊢
      exact ih (i + 1) h

/-- A passing distinct_type_fold returns the state unchanged. -/
theorem distinct_type_fold_id (s : YState) (a0 : Int) :
    ∀ (l : List Int) (τ : Int),
      (distinct_type_fold s a0 τ l).1 = true →
      distinct_type_fold s a0 τ l = (true, s) := by
  intro l
  induction l with
  | nil => intro τ _; rfl
  | cons t rest ih =>
    intro τ h
    unfold distinct_type_fold at h ⊢
    by_cases hn : super_type s.types τ (term_type s t) = NULL_TYPE
    · rw [if_pos hn] at h
      simp at h
    · rw [if_neg hn] at h ⊢
      exact ih _ h

/-- A passing check_good_distinct_term returns the state unchanged. -/
theorem check_good_distinct_term_id (s : YState) (a : List Int)
    (h : (check_good_distinct_term s a).1 = true) :
    check_good_distinct_term s a = (true, s) := by
  unfold check_good_distinct_term andCheck at h ⊢
  by_cases h0 : a.length = 0
  · unfold check_positive at h
    simp [h0] at h
  · have hp : check_positive s a.length = (true, s) := by
      unfold check_positive
      simp [h0]
    rw [hp] at h ⊢
    dsimp only at h ⊢
    by_cases ha : a.length > YICES_MAX_ARITY
    · unfold check_arity at h
      simp [ha] at h
    · have haok : check_arity s a.length = (true, s) := by
        unfold check_arity
        simp [ha]
      rw [haok] at h ⊢
      dsimp only at h ⊢
      by_cases hg : (check_good_terms s a).1 = true
      · have hgid : check_good_terms s a = (true, s) :=
          check_good_terms_from_id s a 0 hg
        rw [hgid] at h ⊢
        dsimp only at h ⊢
        cases a with
        | nil => rfl
        | cons a0 rest => exact distinct_type_fold_id s a0 rest _ h
      · cases hgg : check_good_terms s a with
        | mk b s2 =>
          cases b with
          | true =>
            rw [hgg] at hg
            simp at hg
          | false =>
            rw [hgg] at h
            simp at h

/-- In a sorted list that is not duplicate-free, some duplicate is
adjacent, so the scan of yices_distinct finds it. -/
theorem sorted_dup_adjacent :
    ∀ l : List Int, l.Sorted (· ≤ ·) → ¬ l.Nodup →
      has_adjacent_dup l = true := by
  intro l
  induction l with
  | nil => intro _ hnd; exact absurd List.nodup_nil hnd
  | cons a tl ih =>
    intro hs hnd
    cases tl with
    | nil => exact absurd (List.nodup_singleton a) hnd
    | cons b rest =>
      rw [List.sorted_cons] at hs
      obtain ⟨hale, hs2⟩ := hs
      by_cases hab : b = a
      · unfold has_adjacent_dup
        rw [if_pos hab]
      · unfold has_adjacent_dup
        rw [if_neg hab]
        apply ih hs2
        intro hnd2
        apply hnd
        rw [List.nodup_cons]
        refine ⟨?_, hnd2⟩
        intro hmem
        rcases List.mem_cons.mp hmem with h1 | h1
        · exact hab h1.symm
        · rw [List.sorted_cons] at hs2
          have hba : b ≤ a := hs2.1 a h1
          have hab2 : a ≤ b := hale b (List.mem_cons_self b rest)
          exact hab (le_antisymm hba hab2)

/-- With at least three arguments whose common type is a scalar of
cardinality below the argument count, yices_distinct returns false. -/
theorem distinct_scalar_collapse (s : YState) (a0 a1 a2 : Int)
    (rest : List Int) (k : Nat)
    (hck : (check_good_distinct_term s (a0 :: a1 :: a2 :: rest)).1 = true)
    (hτ : type_desc s.types (term_type s a0) = some (.scalarT k))
    (hk : k < (a0 :: a1 :: a2 :: rest).length) :
    (yices_distinct s (a0 :: a1 :: a2 :: rest)).1 = false_term := by
  have hid := check_good_distinct_term_id s _ hck
  unfold yices_distinct
  rw [hid]
  dsimp only
  rw [hτ]
  have hk2 : k < rest.length + 1 + 1 + 1 := by simpa using hk
  simp [hk, hk2]

/-- With at least three boolean arguments, yices_distinct returns
false. -/
theorem distinct_bool_collapse (s : YState) (a0 a1 a2 : Int)
    (rest : List Int)
    (hck : (check_good_distinct_term s (a0 :: a1 :: a2 :: rest)).1 = true)
    (hτ : term_type s a0 = bool_type) :
    (yices_distinct s (a0 :: a1 :: a2 :: rest)).1 = false_term := by
  have hid := check_good_distinct_term_id s _ hck
  unfold yices_distinct
  rw [hid]
  dsimp only
  simp [hτ]

/-- With at least three arguments two of which are identical,
yices_distinct returns false. -/
theorem distinct_duplicate_false (s : YState) (a0 a1 a2 : Int)
    (rest : List Int)
    (hck : (check_good_distinct_term s (a0 :: a1 :: a2 :: rest)).1 = true)
    (hdup : ¬ (a0 :: a1 :: a2 :: rest).Nodup) :
    (yices_distinct s (a0 :: a1 :: a2 :: rest)).1 = false_term := by
  have hid := check_good_distinct_term_id s _ hck
  unfold yices_distinct
  rw [hid]
  dsimp only
  have hadj : has_adjacent_dup (int_array_sort (a0 :: a1 :: a2 :: rest))
      = true := by
    unfold int_array_sort
    apply sorted_dup_adjacent
    · exact List.sorted_insertionSort (· ≤ ·) _
    · intro hnd
      exact hdup ((List.perm_insertionSort (· ≤ ·) _).nodup_iff.mp hnd)
  split
  all_goals simp [hadj]

/-- yices_distinct on the two-element list [a, a] delegates to yices_neq
and returns false in every sort. -/
theorem distinct_pair_self_false (s : YState) (a : Int)
    (hgood : bad_term s a = false)
    (hτ : bad_type s.types (term_type s a) = false) :
    (yices_distinct s [a, a]).1 = false_term := by
  show (yices_neq s a a).1 = false_term
  unfold yices_neq
  rw [check_good_eq_refl s a hgood hτ]
  dsimp only
  by_cases hb : is_boolean_term s a = true
  · rw [if_pos hb]
    unfold mk_xor
    rw [if_pos rfl]
  · rw [if_neg hb]
    by_cases ha : is_arithmetic_term s a = true
    · rw [if_pos ha]
      unfold mk_arithneq
      rw [mk_aritheq_self]
      rfl
    · rw [if_neg ha]
      by_cases hv : is_bitvector_term s a = true
      · rw [if_pos hv]
        unfold mk_bvneq
        rw [if_pos rfl]
      · rw [if_neg hv]
        rw [if_pos rfl]

/-- C7 (amended): the cardinality collapse of yices_distinct applies
when the common type is Bool or a Scalar(k) with k below the argument
count (not for every finite type: see the bitvector counterexample);
and distinct returns false whenever two arguments are identical, both
through the duplicate scan for three or more arguments and through
yices_neq for an identical pair. -/
theorem c7_amended_distinct_collapse :
    (∀ (s : YState) (a0 a1 a2 : Int) (rest : List Int) (k : Nat),
      (check_good_distinct_term s (a0 :: a1 :: a2 :: rest)).1 = true →
      type_desc s.types (term_type s a0) = some (.scalarT k) →
      k < (a0 :: a1 :: a2 :: rest).length →
      (yices_distinct s (a0 :: a1 :: a2 :: rest)).1 = false_term) ∧
    (∀ (s : YState) (a0 a1 a2 : Int) (rest : List Int),
      (check_good_distinct_term s (a0 :: a1 :: a2 :: rest)).1 = true →
      term_type s a0 = bool_type →
      (yices_distinct s (a0 :: a1 :: a2 :: rest)).1 = false_term) ∧
    (∀ (s : YState) (a0 a1 a2 : Int) (rest : List Int),
      (check_good_distinct_term s (a0 :: a1 :: a2 :: rest)).1 = true →
      ¬ (a0 :: a1 :: a2 :: rest).Nodup →
      (yices_distinct s (a0 :: a1 :: a2 :: rest)).1 = false_term) ∧
    (∀ (s : YState) (a : Int),
      bad_term s a = false →
      bad_type s.types (term_type s a) = false →
      (yices_distinct s [a, a]).1 = false_term) :=
  ⟨distinct_scalar_collapse, distinct_bool_collapse,
   distinct_duplicate_false, distinct_pair_self_false⟩

/-- C7 witness: the three scalar uninterpreteds of SA (references 26,
28, 30) over Scalar(2) collapse to false; a duplicated boolean triple
collapses to false; and the identical pair [2, 2] yields false. -/
theorem c7_witness :
    (check_good_distinct_term SA [26, 28, 30]).1 = true ∧
      (yices_distinct SA [26, 28, 30]).1 = false_term ∧
      (yices_distinct SA [2, 4, 2]).1 = false_term ∧
      (yices_distinct SA [2, 2]).1 = false_term :=
  ⟨by decide,
   c7_amended_distinct_collapse.1 SA 26 28 30 [] 2 (by decide) (by decide)
     (by decide),
   c7_amended_distinct_collapse.2.2.1 SA 2 4 2 [] (by decide) (by decide),
   c7_amended_distinct_collapse.2.2.2 SA 2 (by decide) (by decide)⟩

end YicesSpec

namespace YicesSpec

/-- Explicit form of the polarity flip: plus one on even references,
minus one on odd ones. -/
theorem opposite_term_eq_cases (b : Int) :
    (b % 2 = 0 ∧ opposite_term b = b + 1) ∨
      (b % 2 = 1 ∧ opposite_term b = b - 1) := by
  unfold opposite_term
  rcases Int.emod_two_eq_zero_or_one b with hm | hm
  · refine Or.inl ⟨hm, ?_⟩
    simp only [hm]
    norm_num
  · refine Or.inr ⟨hm, ?_⟩
    simp only [hm]
    norm_num

/-- The flip of a nonnegative reference is nonnegative. -/
theorem opposite_nonneg (b : Int) (h : 0 ≤ b) : 0 ≤ opposite_term b := by
  rcases opposite_term_eq_cases b with ⟨hm, he⟩ | ⟨hm, he⟩ <;> omega

/-- The flip never fixes a reference. -/
theorem opposite_ne (b : Int) : opposite_term b ≠ b := by
  rcases opposite_term_eq_cases b with ⟨hm, he⟩ | ⟨hm, he⟩ <;> omega

/-- The flip preserves the index. -/
theorem term_index_opposite (b : Int) (h : 0 ≤ b) :
    term_index (opposite_term b) = term_index b := by
  unfold term_index
  rcases opposite_term_eq_cases b with ⟨hm, he⟩ | ⟨hm, he⟩ <;> rw [he] <;> omega

/-- The flip of a good term is a good term. -/
theorem bad_term_opposite (s : YState) (b : Int) (h : bad_term s b = false) :
    bad_term s (opposite_term b) = false := by
  have hnn := good_term_nonneg s b h
  have hop := opposite_nonneg b hnn
  unfold bad_term term_desc at h ⊢
  rw [if_neg (by omega : ¬ opposite_term b < 0)]
  rw [term_index_opposite b hnn]
  rw [if_neg (by omega : ¬ b < 0)] at h
  exact h

/-- A reference and its flip are opposite boolean terms, in both
argument orders. -/
theorem opposite_bool_terms_flip (b : Int) (hb : 0 ≤ b) :
    opposite_bool_terms (opposite_term b) b = true ∧
      opposite_bool_terms b (opposite_term b) = true := by
  unfold opposite_bool_terms unsigned_term
  rcases opposite_term_eq_cases b with ⟨hm, he⟩ | ⟨hm, he⟩
  · rw [he]
    have h1 : (b + 1) % 2 = 1 := by omega
    have h2 : b + 1 - 1 = b := by ring
    simp [h1, h2, hm]
  · rw [he]
    have h1 : (b - 1) % 2 = 0 := by omega
    simp [h1, hm]

/-- opposite_bool_terms is symmetric. -/
theorem opposite_bool_terms_symm (x y : Int) :
    opposite_bool_terms x y = opposite_bool_terms y x := by
  unfold opposite_bool_terms
  rw [Bool.or_comm]

/-- Validation of an equality over two good boolean terms passes with
no state change (given that the bool type handle is good). -/
theorem check_good_eq_bool (s : YState) (x y : Int)
    (hx : bad_term s x = false) (hy : bad_term s y = false)
    (hbx : is_boolean_term s x = true) (hby : is_boolean_term s y = true)
    (ht : bad_type s.types bool_type = false) :
    check_good_eq s x y = (true, s) := by
  have hbx2 : term_type s x = bool_type := by
    unfold is_boolean_term at hbx
    simpa using hbx
  have hby2 : term_type s y = bool_type := by
    unfold is_boolean_term at hby
    simpa using hby
  unfold check_good_eq andCheck check_good_term
  rw [if_neg (by simp [hx])]
  dsimp only
  rw [if_neg (by simp [hy])]
  dsimp only
  unfold check_compatible_terms
  rw [hbx2, hby2]
  have ht0 : bad_type s.types 0 = false := ht
  have hcomp : compatible_types s.types bool_type bool_type = true := by
    unfold compatible_types super_type
    simp [ht0, NULL_TYPE, bool_type]
  simp [hcomp]

/-- mk_iff of a reference and its flip returns the false term, in both
argument orders. -/
theorem mk_iff_flip (s : YState) (b : Int) (hb : 0 ≤ b) :
    (mk_iff s (opposite_term b) b).1 = false_term ∧
      (mk_iff s b (opposite_term b)).1 = false_term := by
  by_cases h0 : b = 0
  · subst h0
    exact ⟨rfl, rfl⟩
  · by_cases h1 : b = 1
    · subst h1
      exact ⟨rfl, rfl⟩
    · have hne := opposite_ne b
      have hopp := opposite_bool_terms_flip b hb
      have hob : 0 ≤ opposite_term b := opposite_nonneg b hb
      have hbt : opposite_term b ≠ true_term := by
        unfold true_term
        rcases opposite_term_eq_cases b with ⟨hm, he⟩ | ⟨hm, he⟩ <;> omega
      have hbf : opposite_term b ≠ false_term := by
        unfold false_term
        rcases opposite_term_eq_cases b with ⟨hm, he⟩ | ⟨hm, he⟩ <;> omega
      constructor
      · unfold mk_iff
        rw [if_neg hne, if_neg hbt,
            if_neg (by unfold true_term at *; omega : ¬ b = true_term),
            if_neg hbf,
            if_neg (by unfold false_term at *; unfold true_term at *; omega :
              ¬ b = false_term),
            if_pos hopp.1]
      · unfold mk_iff
        rw [if_neg (fun hc => hne hc.symm),
            if_neg (by unfold true_term at *; omega : ¬ b = true_term),
            if_neg hbt,
            if_neg (by unfold false_term at *; unfold true_term at *; omega :
              ¬ b = false_term),
            if_neg hbf,
            if_pos hopp.2]

end YicesSpec

namespace YicesSpec

/-- A successor reference of an even reference is its opposite, so
opposite_bool_terms holds of the pair. -/
theorem opposite_bool_terms_succ (c x : Int) (hce : c % 2 = 0)
    (heq : c + 1 = x) : opposite_bool_terms c x = true := by
  unfold opposite_bool_terms unsigned_term
  rw [← heq]
  have h1 : (c + 1) % 2 = 1 := by omega
  have h2 : c + 1 - 1 = c := by ring
  simp [h1, h2]

/-- The flip of an even reference c is opposite to no term other than c
itself. -/
theorem opposite_bool_terms_flip_left (c x : Int) (hce : c % 2 = 0)
    (hcx : c ≠ x) : opposite_bool_terms (c + 1) x = false := by
  unfold opposite_bool_terms unsigned_term
  have h1 : (c + 1) % 2 = 1 := by omega
  have h2 : c + 1 - 1 = c := by ring
  rcases Int.emod_two_eq_zero_or_one x with hx | hx
  · simp [h1, h2, hx, hcx]
  · have h3 : ¬ (x - 1 = c + 1) := by omega
    simp [h1, h2, hx, hcx, h3]

/-- On boolean well-typed arguments that pass validation, yices_ite is
mk_bool_ite. -/
theorem yices_ite_bool (s : YState) (c x y : Int)
    (hgc : bad_term s c = false) (hgx : bad_term s x = false)
    (hgy : bad_term s y = false)
    (hbc : is_boolean_term s c = true)
    (hbx2 : term_type s x = bool_type) (hby2 : term_type s y = bool_type)
    (ht : bad_type s.types bool_type = false) :
    yices_ite s c x y = mk_bool_ite s c x y := by
  unfold yices_ite
  have h1 : check_good_term s c = (true, s) := by
    unfold check_good_term
    simp [hgc]
  have h2 : check_good_term s x = (true, s) := by
    unfold check_good_term
    simp [hgx]
  have h3 : check_good_term s y = (true, s) := by
    unfold check_good_term
    simp [hgy]
  have h4 : check_boolean_term s c = (true, s) := by
    unfold check_boolean_term
    simp [hbc]
  rw [h1]
  dsimp only
  rw [h2]
  dsimp only
  rw [h3]
  dsimp only
  rw [h4]
  dsimp only
  have ht0 : bad_type s.types 0 = false := ht
  have hτ : super_type s.types (term_type s x) (term_type s y) = bool_type := by
    rw [hbx2, hby2]
    unfold super_type
    simp [ht0, bool_type]
  rw [hτ]
  rw [if_neg (by unfold bool_type NULL_TYPE; omega : ¬ bool_type = NULL_TYPE)]
  rw [if_pos (by unfold is_boolean_term; simp [hbx2] : is_boolean_term s x = true)]

/-- Under the generic-case side conditions (no special simplification of
mk_bool_ite fires), the if-then-else with flipped condition equals the
if-then-else with swapped branches. -/
theorem mk_bool_ite_flip_generic (s : YState) (c x y : Int)
    (hgc : bad_term s c = false) (hce : c % 2 = 0)
    (hc0 : c ≠ true_term) (hc1 : c ≠ false_term)
    (hx0 : x ≠ true_term) (hx1 : x ≠ false_term)
    (hy0 : y ≠ true_term) (hy1 : y ≠ false_term)
    (hxy : x ≠ y) (hcx : c ≠ x) (hcy : c ≠ y)
    (hoxy : opposite_bool_terms x y = false)
    (hocx : opposite_bool_terms c x = false)
    (hocy : opposite_bool_terms c y = false) :
    mk_bool_ite s (c + 1) x y = mk_bool_ite s c y x := by
  have hcn := good_term_nonneg s c hgc
  have h1 : (c + 1) % 2 = 1 := by omega
  have hcx1 : ¬ (c + 1 = x) := by
    intro heq
    rw [opposite_bool_terms_succ c x hce heq] at hocx
    exact Bool.true_eq_false.mp hocx
  have hcy1 : ¬ (c + 1 = y) := by
    intro heq
    rw [opposite_bool_terms_succ c y hce heq] at hocy
    exact Bool.true_eq_false.mp hocy
  have hkindL : term_kind s (c + 1) = .NOT_TERM := by
    unfold term_kind
    rw [show ((c + 1) % 2 == 1) = true from by simp [h1]]
    rfl
  have hkindR : ¬ (term_kind s c = .NOT_TERM) := by
    intro hk
    have := (term_kind_not_iff s c hgc).mp hk
    omega
  have hnta : not_term_arg (c + 1) = c := by
    unfold not_term_arg unsigned_term
    rw [show ((c + 1) % 2 == 0) = false from by simp [h1]]
    simp
  have lhs_eq : mk_bool_ite s (c + 1) x y =
      (if term_kind s y = .BV_EQ_ATOM ∧ term_kind s x = .BV_EQ_ATOM then
        mk_lifted_ite_bveq s c y x
      else ite_term s c y x bool_type) := by
    unfold mk_bool_ite
    rw [if_neg hxy,
        if_neg (by unfold true_term; omega : ¬ c + 1 = true_term),
        if_neg (by unfold false_term; unfold true_term at hc0; omega :
          ¬ c + 1 = false_term),
        if_neg (by simp [hoxy]),
        if_neg hcx1, if_neg hcy1,
        if_neg (by simp [opposite_bool_terms_flip_left c x hce hcx]),
        if_neg (by simp [opposite_bool_terms_flip_left c y hce hcy]),
        if_neg hx0, if_neg hy1, if_neg hx1, if_neg hy0]
    simp only [if_pos hkindL, hnta]
  have rhs_eq : mk_bool_ite s c y x =
      (if term_kind s y = .BV_EQ_ATOM ∧ term_kind s x = .BV_EQ_ATOM then
        mk_lifted_ite_bveq s c y x
      else ite_term s c y x bool_type) := by
    unfold mk_bool_ite
    rw [if_neg (fun hc => hxy hc.symm),
        if_neg hc0, if_neg hc1,
        if_neg (by rw [opposite_bool_terms_symm]; simp [hoxy]),
        if_neg hcy, if_neg hcx,
        if_neg (by simp [hocy]), if_neg (by simp [hocx]),
        if_neg hy0, if_neg hx1, if_neg hy1, if_neg hx0]
    simp only [if_neg hkindR]
  rw [lhs_eq, rhs_eq]

/-- C5 (amended): polarity normalization as the code implements it.
Part one: yices_eq of a boolean term and its negation returns the
false term, in both argument orders.  Part two: when none of the
special simplifications of the boolean if-then-else fires, yices_ite
with a negated condition equals yices_ite with the positive condition
and swapped branches, so the generic construction never stores a
negated condition.  (When a simplification fires the two calls may
return different, logically equivalent references, as the recorded
counterexample shows.) -/
theorem c5_amended_polarity_normalization :
    (∀ (s : YState) (b : Int),
       bad_term s b = false → is_boolean_term s b = true →
       is_boolean_term s (opposite_term b) = true →
       bad_type s.types bool_type = false →
       (yices_eq s (opposite_term b) b).1 = false_term ∧
       (yices_eq s b (opposite_term b)).1 = false_term) ∧
    (∀ (s : YState) (c x y : Int),
       bad_term s c = false → bad_term s x = false → bad_term s y = false →
       is_boolean_term s c = true → is_boolean_term s x = true →
       is_boolean_term s y = true →
       bad_type s.types bool_type = false →
       c % 2 = 0 →
       c ≠ true_term → c ≠ false_term →
       x ≠ true_term → x ≠ false_term →
       y ≠ true_term → y ≠ false_term →
       x ≠ y → c ≠ x → c ≠ y →
       opposite_bool_terms x y = false →
       opposite_bool_terms c x = false →
       opposite_bool_terms c y = false →
       yices_ite s (opposite_term c) x y = yices_ite s c y x) := by
  constructor
  · intro s b hg hb hb2 ht
    have hnn := good_term_nonneg s b hg
    have hcge1 : check_good_eq s (opposite_term b) b = (true, s) :=
      check_good_eq_bool s _ b (bad_term_opposite s b hg) hg hb2 hb ht
    have hcge2 : check_good_eq s b (opposite_term b) = (true, s) :=
      check_good_eq_bool s b _ hg (bad_term_opposite s b hg) hb hb2 ht
    constructor
    · unfold yices_eq
      rw [hcge1]
      dsimp only
      rw [if_pos hb2]
      exact (mk_iff_flip s b hnn).1
    · unfold yices_eq
      rw [hcge2]
      dsimp only
      rw [if_pos hb]
      exact (mk_iff_flip s b hnn).2
  · intro s c x y hgc hgx hgy hbc hbx hby ht hce hc0 hc1 hx0 hx1 hy0 hy1
      hxy hcx hcy hoxy hocx hocy
    have hcn := good_term_nonneg s c hgc
    have hoc : opposite_term c = c + 1 := by
      rcases opposite_term_eq_cases c with ⟨_, he⟩ | ⟨hm, _⟩
      · exact he
      · omega
    have h1 : (c + 1) % 2 = 1 := by omega
    have hgc1 : bad_term s (c + 1) = false := by
      rw [← hoc]
      exact bad_term_opposite s c hgc
    have hbc1 : is_boolean_term s (c + 1) = true := by
      unfold is_boolean_term term_type
      rw [show ((c + 1) % 2 == 1) = true from by simp [h1]]
      simp
    have hbx2 : term_type s x = bool_type := by
      unfold is_boolean_term at hbx
      simpa using hbx
    have hby2 : term_type s y = bool_type := by
      unfold is_boolean_term at hby
      simpa using hby
    rw [hoc]
    rw [yices_ite_bool s (c + 1) x y hgc1 hgx hgy hbc1 hbx2 hby2 ht]
    rw [yices_ite_bool s c y x hgc hgy hgx hbc hby2 hbx2 ht]
    exact mk_bool_ite_flip_generic s c x y hgc hce hc0 hc1 hx0 hx1 hy0 hy1
      hxy hcx hcy hoxy hocx hocy

/-- C5 witness: over SA, part one at the boolean uninterpreted u
(reference 2), and part two at the or-term condition c = 6 with
branches the uninterpreteds x = 2 and y = 4, where the generic
if-then-else is built. -/
theorem c5_witness :
    ((yices_eq SA (opposite_term 2) 2).1 = false_term ∧
      (yices_eq SA 2 (opposite_term 2)).1 = false_term) ∧
    yices_ite SA (opposite_term 6) 2 4 = yices_ite SA 6 4 2 :=
  ⟨c5_amended_polarity_normalization.1 SA 2 (by decide) (by decide)
     (by decide) (by decide),
   c5_amended_polarity_normalization.2 SA 6 2 4 (by decide) (by decide)
     (by decide) (by decide) (by decide) (by decide) (by decide) (by decide)
     (by decide) (by decide) (by decide) (by decide) (by decide) (by decide)
     (by decide) (by decide) (by decide) (by decide) (by decide) (by decide)⟩

end YicesSpec

namespace YicesSpec

/-- get_shift_amount clamps: any value at least the width n yields
exactly n, never the value reduced modulo n. -/
theorem get_shift_amount_ge (n v : Nat) (h : n ≤ v) :
    get_shift_amount n v = n := by
  unfold get_shift_amount
  split
  · rfl
  · rw [if_pos (by omega)]

/-- A replicated-false buffer is constant. -/
theorem replicate_false_is_constant (n : Nat) :
    bvlogic_buffer_is_constant (List.replicate n BBit.bfalse) = true := by
  unfold bvlogic_buffer_is_constant
  simp [List.all_eq_true]

/-- Boolean values of the replicated-false buffer. -/
theorem replicate_false_constant_bits (n : Nat) :
    bvlogic_buffer_constant_bits (List.replicate n BBit.bfalse) =
      List.replicate n false := by
  unfold bvlogic_buffer_constant_bits
  rw [List.map_replicate]
  rfl

/-- Converting the all-false width-n buffer to a term interns the
all-zero bitvector constant of width n. -/
theorem bvlogic_term_of_zero_buffer (s : YState) (n : Nat) (hn : 1 ≤ n) :
    yices_bvlogic_term
        { s with internal_bvlogic := List.replicate n BBit.bfalse } =
      bvconst_term
        { s with internal_bvlogic := List.replicate n BBit.bfalse }
        n (List.replicate n false) := by
  unfold yices_bvlogic_term
  dsimp only
  rw [if_neg (by simp [List.length_replicate]; omega :
        ¬ (List.replicate n BBit.bfalse).length = 0)]
  rw [if_pos (replicate_false_is_constant n)]
  rw [replicate_false_constant_bits]
  simp [List.length_replicate]

/-- C6 (amended): for a constant second operand the shift amount is
clamped at the width n (get_shift_amount never reduces modulo n), so
any overshooting amount gives the all-zero vector for bvshl and
bvlshr and sign-bit replication for bvashr; a non-constant second
operand gives the opaque binary shift node; and bvshl of the 8-bit
variable by the constant 4 gives its bit array shifted left by 4 with
zero fill. -/
theorem c6_amended_shift_clamped :
    (∀ (s0 s : YState) (t1 t2 : Int) (n : Nat) (bits : List Bool),
       check_compatible_bv_terms s0 t1 t2 = (true, s) →
       term_kind s t2 = .BV_CONST_TERM →
       term_desc s t2 = some (.bvconstT n bits) →
       n ≤ bitsValue bits → 1 ≤ n →
       (copy_term_to_internal_bvlogic_buffer s t1).internal_bvlogic.length
         = n →
       yices_bvshl s0 t1 t2 =
         bvconst_term
           { copy_term_to_internal_bvlogic_buffer s t1 with
             internal_bvlogic := List.replicate n BBit.bfalse }
           n (List.replicate n false)) ∧
    (∀ (s0 s : YState) (t1 t2 : Int) (n : Nat) (bits : List Bool),
       check_compatible_bv_terms s0 t1 t2 = (true, s) →
       term_kind s t2 = .BV_CONST_TERM →
       term_desc s t2 = some (.bvconstT n bits) →
       n ≤ bitsValue bits → 1 ≤ n →
       (copy_term_to_internal_bvlogic_buffer s t1).internal_bvlogic.length
         = n →
       yices_bvlshr s0 t1 t2 =
         bvconst_term
           { copy_term_to_internal_bvlogic_buffer s t1 with
             internal_bvlogic := List.replicate n BBit.bfalse }
           n (List.replicate n false)) ∧
    (∀ (s0 s : YState) (t1 t2 : Int) (n : Nat) (bits : List Bool),
       check_compatible_bv_terms s0 t1 t2 = (true, s) →
       term_kind s t2 = .BV_CONST_TERM →
       term_desc s t2 = some (.bvconstT n bits) →
       n ≤ bitsValue bits → 1 ≤ n →
       (copy_term_to_internal_bvlogic_buffer s t1).internal_bvlogic.length
         = n →
       yices_bvashr s0 t1 t2 =
         yices_bvlogic_term
           { copy_term_to_internal_bvlogic_buffer s t1 with
             internal_bvlogic := List.replicate n
               ((copy_term_to_internal_bvlogic_buffer s
                   t1).internal_bvlogic.getLastD BBit.bfalse) }) ∧
    (∀ (s0 s : YState) (t1 t2 : Int),
       check_compatible_bv_terms s0 t1 t2 = (true, s) →
       ¬ term_kind s t2 = .BV_CONST_TERM →
       yices_bvshl s0 t1 t2 = bvapply_term s BVOP_SHL t1 t2 ∧
       yices_bvlshr s0 t1 t2 = bvapply_term s BVOP_LSHR t1 t2 ∧
       yices_bvashr s0 t1 t2 = bvapply_term s BVOP_ASHR t1 t2) ∧
    term_desc (yices_bvshl SA 20 22).2 (yices_bvshl SA 20 22).1 =
      some (.bvlogicT [BBit.bfalse, BBit.bfalse, BBit.bfalse, BBit.bfalse,
        BBit.bitOf 20 0, BBit.bitOf 20 1, BBit.bitOf 20 2,
        BBit.bitOf 20 3]) := by
  refine ⟨?_, ?_, ?_, ?_, ?_⟩
  · intro s0 s t1 t2 n bits hck hkind hdesc hover hn hlen
    unfold yices_bvshl
    rw [hck]
    dsimp only
    rw [if_pos hkind, hdesc]
    dsimp only
    rw [get_shift_amount_ge n (bitsValue bits) hover]
    rw [show bvlogic_buffer_shift_left0
          (copy_term_to_internal_bvlogic_buffer s t1).internal_bvlogic n =
        List.replicate n BBit.bfalse from by
      unfold bvlogic_buffer_shift_left0
      rw [hlen]
      simp]
    exact bvlogic_term_of_zero_buffer _ n hn
  · intro s0 s t1 t2 n bits hck hkind hdesc hover hn hlen
    unfold yices_bvlshr
    rw [hck]
    dsimp only
    rw [if_pos hkind, hdesc]
    dsimp only
    rw [get_shift_amount_ge n (bitsValue bits) hover]
    rw [show bvlogic_buffer_shift_right0
          (copy_term_to_internal_bvlogic_buffer s t1).internal_bvlogic n =
        List.replicate n BBit.bfalse from by
      unfold bvlogic_buffer_shift_right0
      rw [hlen]
      simp [hlen]]
    exact bvlogic_term_of_zero_buffer _ n hn
  · intro s0 s t1 t2 n bits hck hkind hdesc hover hn hlen
    unfold yices_bvashr
    rw [hck]
    dsimp only
    rw [if_pos hkind, hdesc]
    dsimp only
    rw [get_shift_amount_ge n (bitsValue bits) hover]
    rw [show bvlogic_buffer_ashift_right
          (copy_term_to_internal_bvlogic_buffer s t1).internal_bvlogic n =
        List.replicate n
          ((copy_term_to_internal_bvlogic_buffer s
              t1).internal_bvlogic.getLastD BBit.bfalse) from by
      unfold bvlogic_buffer_ashift_right
      rw [hlen]
      simp [hlen]]
  · intro s0 s t1 t2 hck hkind
    refine ⟨?_, ?_, ?_⟩
    · unfold yices_bvshl
      rw [hck]
      dsimp only
      rw [if_neg hkind]
    · unfold yices_bvlshr
      rw [hck]
      dsimp only
      rw [if_neg hkind]
    · unfold yices_bvashr
      rw [hck]
      dsimp only
      rw [if_neg hkind]
  · decide

/-- C6 witness: over SA, the width-2 variable shifted by the constant 3
(overshoot) yields the all-zero constant for bvshl and bvlshr and the
replicated high bit for bvashr, and shifting the 1-bit variable by the
1-bit variable yields the opaque node. -/
theorem c6_witness :
    (yices_bvshl SA 16 18 =
      bvconst_term
        { copy_term_to_internal_bvlogic_buffer SA 16 with
          internal_bvlogic := List.replicate 2 BBit.bfalse }
        2 (List.replicate 2 false)) ∧
    (yices_bvlshr SA 16 18 =
      bvconst_term
        { copy_term_to_internal_bvlogic_buffer SA 16 with
          internal_bvlogic := List.replicate 2 BBit.bfalse }
        2 (List.replicate 2 false)) ∧
    (yices_bvashr SA 16 18 =
      yices_bvlogic_term
        { copy_term_to_internal_bvlogic_buffer SA 16 with
          internal_bvlogic := List.replicate 2
            ((copy_term_to_internal_bvlogic_buffer SA
                16).internal_bvlogic.getLastD BBit.bfalse) }) ∧
    (yices_bvshl SA 10 12 = bvapply_term SA BVOP_SHL 10 12 ∧
     yices_bvlshr SA 10 12 = bvapply_term SA BVOP_LSHR 10 12 ∧
     yices_bvashr SA 10 12 = bvapply_term SA BVOP_ASHR 10 12) :=
  ⟨c6_amended_shift_clamped.1 SA SA 16 18 2 [true, true] (by decide)
     (by decide) (by decide) (by decide) (by decide) (by decide),
   c6_amended_shift_clamped.2.1 SA SA 16 18 2 [true, true] (by decide)
     (by decide) (by decide) (by decide) (by decide) (by decide),
   c6_amended_shift_clamped.2.2.1 SA SA 16 18 2 [true, true] (by decide)
     (by decide) (by decide) (by decide) (by decide) (by decide),
   c6_amended_shift_clamped.2.2.2.1 SA SA 10 12 (by decide) (by decide)⟩

end YicesSpec

namespace EfSkolemize

/-- ef_skolem_term leaves the universal stack unchanged. -/
theorem ef_skolem_term_uvars (sk : SkState) (x : Nat) :
    ((ef_skolem_term sk x).2).uvars = sk.uvars := rfl

/-- The substitution-building fold of ef_skolem_body leaves the
universal stack unchanged. -/
theorem skolem_fold_uvars (vars : List Nat) :
    ∀ (acc : List (Nat × STerm) × SkState),
      ((vars.foldl
        (fun (acc : List (Nat × STerm) × SkState) x =>
          let r := ef_skolem_term acc.2 x
          (acc.1 ++ [(x, r.1.fapp)],
           { r.2 with existentials := r.2.existentials ++ [(x, r.1.func)] }))
        acc).2).uvars = acc.2.uvars := by
  induction vars with
  | nil => intro acc; rfl
  | cons x rest ih =>
    intro acc
    rw [List.foldl_cons, ih]
    rfl

/-- ef_skolem_body leaves the universal stack unchanged. -/
theorem ef_skolem_body_uvars (sk : SkState) (vars : List Nat) (body : STerm) :
    ((ef_skolem_body sk vars body).2).uvars = sk.uvars := by
  unfold ef_skolem_body
  split
  · rfl
  · exact skolem_fold_uvars vars ([], sk)

/-- The child-rebuilding fold of ef_skolemize_term preserves the
universal stack when the recursive calls do. -/
theorem skolemize_fold_uvars (f : Nat)
    (ih : ∀ (sk : SkState) (t : STerm),
      ((ef_skolemize_term f sk t).2).uvars = sk.uvars)
    (ts : List STerm) :
    ∀ (acc : List STerm × SkState),
      ((ts.foldl
        (fun (acc : List STerm × SkState) u =>
          let r := ef_skolemize_term f acc.2 u
          (acc.1 ++ [r.1], r.2)) acc).2).uvars = acc.2.uvars := by
  induction ts with
  | nil => intro acc; rfl
  | cons x rest ihl =>
    intro acc
    rw [List.foldl_cons, ihl]
    exact ih acc.2 x

/-- The de-Morgan fold over a negated disjunction preserves the
universal stack when the recursive calls do. -/
theorem skolemize_fold_neg_uvars (f : Nat)
    (ih : ∀ (sk : SkState) (t : STerm),
      ((ef_skolemize_term f sk t).2).uvars = sk.uvars)
    (ts : List STerm) :
    ∀ (acc : List STerm × SkState),
      ((ts.foldl
        (fun (acc : List STerm × SkState) u =>
          let r := ef_skolemize_term f acc.2 (opposite_term u)
          (acc.1 ++ [r.1], r.2)) acc).2).uvars = acc.2.uvars := by
  induction ts with
  | nil => intro acc; rfl
  | cons x rest ihl =>
    intro acc
    rw [List.foldl_cons, ihl]
    exact ih acc.2 (opposite_term x)

/-- Every call of ef_skolemize_term returns with the universal stack it
was given. -/
theorem ef_skolemize_term_uvars (fuel : Nat) :
    ∀ (sk : SkState) (t : STerm),
      ((ef_skolemize_term fuel sk t).2).uvars = sk.uvars := by
  induction fuel with
  | zero => intro sk t; rfl
  | succ f ih =>
    intro sk t
    cases t with
    | atom id b => rfl
    | iteS c a b =>
      rw [ef_skolemize_term]
      dsimp only [unsigned_term, term_is_atomic, is_neg_term]
      simp only [Bool.false_eq_true, if_false]
      split
      · try dsimp only
        rw [ih, ih]
      · try dsimp only
        exact skolemize_fold_uvars f ih _ ([], sk)
    | eqS a b =>
      rw [ef_skolemize_term]
      dsimp only [unsigned_term, term_is_atomic, is_neg_term]
      simp only [Bool.false_eq_true, if_false]
      split
      · try dsimp only
        rw [ih, ih]
      · try dsimp only
        exact skolemize_fold_uvars f ih _ ([], sk)
    | orS args =>
      rw [ef_skolemize_term]
      dsimp only [unsigned_term, term_is_atomic, is_neg_term]
      simp only [Bool.false_eq_true, if_false]
      all_goals try (intros; contradiction)
      try dsimp only
      exact skolemize_fold_uvars f ih _ ([], sk)
    | forallS vars body =>
      rw [ef_skolemize_term]
      dsimp only [unsigned_term, term_is_atomic, is_neg_term]
      simp only [Bool.false_eq_true, if_false]
      try dsimp only
      rw [ih]
      dsimp only
      rw [List.length_append]
      simp [List.take_left]
    | appS args =>
      rw [ef_skolemize_term]
      dsimp only [unsigned_term, term_is_atomic, is_neg_term]
      simp only [Bool.false_eq_true, if_false]
      all_goals try (intros; contradiction)
      try dsimp only
      exact skolemize_fold_uvars f ih _ ([], sk)
    | negS u =>
      rw [ef_skolemize_term]
      dsimp only [unsigned_term, is_neg_term]
      all_goals try (intros; contradiction)
      cases u with
      | atom id b => rfl
      | iteS c a b =>
        dsimp only [term_is_atomic]
        simp only [Bool.false_eq_true, if_false]
        rw [if_pos trivial]
        try dsimp only
        split
        · try dsimp only
          rw [ih, ih]
        · try dsimp only
          exact skolemize_fold_uvars f ih _ ([], sk)
      | eqS a b =>
        dsimp only [term_is_atomic]
        simp only [Bool.false_eq_true, if_false]
        rw [if_pos trivial]
        try dsimp only
        split
        · try dsimp only
          rw [ih, ih]
        · try dsimp only
          exact skolemize_fold_uvars f ih _ ([], sk)
      | orS args =>
        dsimp only [term_is_atomic]
        simp only [Bool.false_eq_true, if_false]
        rw [if_pos trivial]
        try dsimp only
        exact skolemize_fold_neg_uvars f ih args ([], sk)
      | forallS vars body =>
        dsimp only [term_is_atomic]
        simp only [Bool.false_eq_true, if_false]
        rw [if_pos trivial]
        try dsimp only
        rw [ih]
        exact ef_skolem_body_uvars sk vars (opposite_term body)
      | appS args =>
        dsimp only [term_is_atomic]
        simp only [Bool.false_eq_true, if_false]
        rw [if_pos trivial]
        try dsimp only
        exact skolemize_fold_uvars f ih _ ([], sk)
      | negS v =>
        dsimp only [term_is_atomic]
        simp only [Bool.false_eq_true, if_false]
        rw [if_pos trivial]
        try dsimp only
        exact skolemize_fold_uvars f ih _ ([], sk)

/-- C8: the universal-variable stack is a prefix stack.  (1) Every call
of ef_skolemize_term returns with uvars holding exactly the sequence it
held on entry (never shortened or reordered below the entry point).
(2) A call on a positive forall evaluates to the recursion on the body
with the bound variables appended to uvars in declaration order, and
the result state carries the entry stack restored (the appended block
popped in reverse order).  (3) init_ef_skolemize starts with the empty
stack. -/
theorem c8_uvars_prefix_stack :
    (∀ (fuel : Nat) (sk : SkState) (t : STerm),
       ((ef_skolemize_term fuel sk t).2).uvars = sk.uvars) ∧
    (∀ (fuel : Nat) (sk : SkState) (vars : List Nat) (body : STerm),
       ef_skolemize_term (fuel + 1) sk (.forallS vars body) =
         ((ef_skolemize_term fuel
             { sk with uvars := sk.uvars ++ vars } body).1,
          { (ef_skolemize_term fuel
              { sk with uvars := sk.uvars ++ vars } body).2 with
            uvars := sk.uvars })) ∧
    (∀ (f_ite f_iff : Bool), (init_ef_skolemize f_ite f_iff).uvars = []) := by
  refine ⟨fun fuel => ef_skolemize_term_uvars fuel, ?_, fun _ _ => rfl⟩
  intro fuel sk vars body
  rw [ef_skolemize_term]
  dsimp only [unsigned_term, term_is_atomic, is_neg_term]
  simp only [Bool.false_eq_true, if_false]
  try dsimp only
  rw [ef_skolemize_term_uvars]
  try dsimp only
  rw [List.length_append]
  simp [List.take_left]

end EfSkolemize

namespace YicesSpec

/-- A passing check_good_term returns the state unchanged. -/
theorem check_good_term_pass (s : YState) (t : Int)
    (h : (check_good_term s t).1 = true) : check_good_term s t = (true, s) := by
  unfold check_good_term at h ⊢
  by_cases hb : bad_term s t = true
  · simp [hb] at h
  · simp [hb]

/-- A passing check_boolean_term returns the state unchanged. -/
theorem check_boolean_term_pass (s : YState) (t : Int)
    (h : (check_boolean_term s t).1 = true) :
    check_boolean_term s t = (true, s) := by
  unfold check_boolean_term at h ⊢
  by_cases hb : is_boolean_term s t = true
  · simp [hb]
  · simp [hb] at h

/-- A passing check_bitvector_term returns the state unchanged. -/
theorem check_bitvector_term_pass (s : YState) (t : Int)
    (h : (check_bitvector_term s t).1 = true) :
    check_bitvector_term s t = (true, s) := by
  unfold check_bitvector_term at h ⊢
  by_cases hb : is_bitvector_term s t = true
  · simp [hb]
  · simp [hb] at h

/-- A passing check_boolean_args scan returns the state unchanged. -/
theorem check_boolean_args_from_id (s : YState) :
    ∀ (l : List Int) (i : Nat),
      (check_boolean_args_from s i l).1 = true →
      check_boolean_args_from s i l = (true, s) := by
  intro l
  induction l with
  | nil => intro i _; rfl
  | cons t rest ih =>
    intro i h
    unfold check_boolean_args_from at h ⊢
    by_cases hb : is_boolean_term s t = true
    · rw [if_pos hb] at h ⊢
      exact ih (i + 1) h
    · rw [if_neg hb] at h
      simp at h

/-- A passing check_good_terms returns the state unchanged. -/
theorem check_good_terms_pass (s : YState) (a : List Int)
    (h : (check_good_terms s a).1 = true) :
    check_good_terms s a = (true, s) :=
  check_good_terms_from_id s a 0 h

/-- A passing check_boolean_args returns the state unchanged. -/
theorem check_boolean_args_pass (s : YState) (a : List Int)
    (h : (check_boolean_args s a).1 = true) :
    check_boolean_args s a = (true, s) :=
  check_boolean_args_from_id s a 0 h

/-- A failing check_good_term only sets the error record. -/
theorem check_good_term_fail (s : YState) (t : Int)
    (h : (check_good_term s t).1 = false) :
    tables_unchanged s (check_good_term s t).2 ∧
    (check_good_term s t).2.error.code ≠ ErrorCode.NO_ERROR := by
  unfold check_good_term at h ⊢
  by_cases hb : bad_term s t = true
  · rw [if_pos hb]
    exact ⟨⟨rfl, rfl, rfl, rfl⟩, by simp⟩
  · rw [if_neg hb] at h
    simp at h

/-- A failing check_boolean_term only sets the error record. -/
theorem check_boolean_term_fail (s : YState) (t : Int)
    (h : (check_boolean_term s t).1 = false) :
    tables_unchanged s (check_boolean_term s t).2 ∧
    (check_boolean_term s t).2.error.code ≠ ErrorCode.NO_ERROR := by
  unfold check_boolean_term at h ⊢
  by_cases hb : is_boolean_term s t = true
  · rw [if_pos hb] at h
    simp at h
  · rw [if_neg hb]
    exact ⟨⟨rfl, rfl, rfl, rfl⟩, by simp⟩

/-- A failing check_bitvector_term only sets the error record. -/
theorem check_bitvector_term_fail (s : YState) (t : Int)
    (h : (check_bitvector_term s t).1 = false) :
    tables_unchanged s (check_bitvector_term s t).2 ∧
    (check_bitvector_term s t).2.error.code ≠ ErrorCode.NO_ERROR := by
  unfold check_bitvector_term at h ⊢
  by_cases hb : is_bitvector_term s t = true
  · rw [if_pos hb] at h
    simp at h
  · rw [if_neg hb]
    exact ⟨⟨rfl, rfl, rfl, rfl⟩, by simp⟩

/-- A failing check_compatible_terms only sets the error record. -/
theorem check_compatible_terms_fail (s : YState) (t1 t2 : Int)
    (h : (check_compatible_terms s t1 t2).1 = false) :
    tables_unchanged s (check_compatible_terms s t1 t2).2 ∧
    (check_compatible_terms s t1 t2).2.error.code ≠ ErrorCode.NO_ERROR := by
  unfold check_compatible_terms at h ⊢
  by_cases hb : compatible_types s.types (term_type s t1) (term_type s t2)
      = true
  · rw [if_pos hb] at h
    simp at h
  · rw [if_neg hb]
    exact ⟨⟨rfl, rfl, rfl, rfl⟩, by simp⟩

/-- A failing check_positive only sets the error record. -/
theorem check_positive_fail (s : YState) (n : Nat)
    (h : (check_positive s n).1 = false) :
    tables_unchanged s (check_positive s n).2 ∧
    (check_positive s n).2.error.code ≠ ErrorCode.NO_ERROR := by
  unfold check_positive at h ⊢
  by_cases hn : n = 0
  · rw [if_pos hn]
    exact ⟨⟨rfl, rfl, rfl, rfl⟩, by simp⟩
  · rw [if_neg hn] at h
    simp at h

/-- A failing check_arity only sets the error record. -/
theorem check_arity_fail (s : YState) (n : Nat)
    (h : (check_arity s n).1 = false) :
    tables_unchanged s (check_arity s n).2 ∧
    (check_arity s n).2.error.code ≠ ErrorCode.NO_ERROR := by
  unfold check_arity at h ⊢
  by_cases hn : n > YICES_MAX_ARITY
  · rw [if_pos hn]
    exact ⟨⟨rfl, rfl, rfl, rfl⟩, by simp⟩
  · rw [if_neg hn] at h
    simp at h

/-- A failing check_good_terms scan only sets the error record. -/
theorem check_good_terms_from_fail (s : YState) :
    ∀ (l : List Int) (i : Nat),
      (check_good_terms_from s i l).1 = false →
      tables_unchanged s (check_good_terms_from s i l).2 ∧
      (check_good_terms_from s i l).2.error.code ≠ ErrorCode.NO_ERROR := by
  intro l
  induction l with
  | nil =>
    intro i h
    simp [check_good_terms_from] at h
  | cons t rest ih =>
    intro i h
    unfold check_good_terms_from at h ⊢
    by_cases hb : bad_term s t = true
    · rw [if_pos hb]
      exact ⟨⟨rfl, rfl, rfl, rfl⟩, by simp⟩
    · rw [if_neg hb] at h ⊢
      exact ih (i + 1) h

/-- A failing check_good_terms only sets the error record. -/
theorem check_good_terms_fail (s : YState) (a : List Int)
    (h : (check_good_terms s a).1 = false) :
    tables_unchanged s (check_good_terms s a).2 ∧
    (check_good_terms s a).2.error.code ≠ ErrorCode.NO_ERROR :=
  check_good_terms_from_fail s a 0 h

/-- A failing check_boolean_args scan only sets the error record. -/
theorem check_boolean_args_from_fail (s : YState) :
    ∀ (l : List Int) (i : Nat),
      (check_boolean_args_from s i l).1 = false →
      tables_unchanged s (check_boolean_args_from s i l).2 ∧
      (check_boolean_args_from s i l).2.error.code ≠ ErrorCode.NO_ERROR := by
  intro l
  induction l with
  | nil =>
    intro i h
    simp [check_boolean_args_from] at h
  | cons t rest ih =>
    intro i h
    unfold check_boolean_args_from at h ⊢
    by_cases hb : is_boolean_term s t = true
    · rw [if_pos hb] at h ⊢
      exact ih (i + 1) h
    · rw [if_neg hb]
      exact ⟨⟨rfl, rfl, rfl, rfl⟩, by simp⟩

/-- A failing check_boolean_args only sets the error record. -/
theorem check_boolean_args_fail (s : YState) (a : List Int)
    (h : (check_boolean_args s a).1 = false) :
    tables_unchanged s (check_boolean_args s a).2 ∧
    (check_boolean_args s a).2.error.code ≠ ErrorCode.NO_ERROR :=
  check_boolean_args_from_fail s a 0 h

/-- A failing distinct type fold only sets the error record. -/
theorem distinct_type_fold_fail (s : YState) (a0 : Int) :
    ∀ (l : List Int) (τ : Int),
      (distinct_type_fold s a0 τ l).1 = false →
      tables_unchanged s (distinct_type_fold s a0 τ l).2 ∧
      (distinct_type_fold s a0 τ l).2.error.code ≠ ErrorCode.NO_ERROR := by
  intro l
  induction l with
  | nil =>
    intro τ h
    simp [distinct_type_fold] at h
  | cons t rest ih =>
    intro τ h
    unfold distinct_type_fold at h ⊢
    by_cases hn : super_type s.types τ (term_type s t) = NULL_TYPE
    · rw [if_pos hn]
      exact ⟨⟨rfl, rfl, rfl, rfl⟩, by simp⟩
    · rw [if_neg hn] at h ⊢
      exact ih _ h

/-- A failing check_good_eq only sets the error record. -/
theorem check_good_eq_fail (s : YState) (l r : Int)
    (h : (check_good_eq s l r).1 = false) :
    tables_unchanged s (check_good_eq s l r).2 ∧
    (check_good_eq s l r).2.error.code ≠ ErrorCode.NO_ERROR := by
  unfold check_good_eq andCheck at h ⊢
  cases h1 : check_good_term s l with
  | mk b1 st1 =>
    rw [h1] at h
    cases b1 with
    | false =>
      have hf := check_good_term_fail s l (by rw [h1])
      rw [h1] at hf
      exact hf
    | true =>
      have hp := check_good_term_pass s l (by rw [h1])
      rw [h1] at hp
      have hst : s = st1 := (congrArg Prod.snd hp).symm
      subst hst
      dsimp only at h ⊢
      cases h2 : check_good_term s r with
      | mk b2 st2 =>
        rw [h2] at h
        cases b2 with
        | false =>
          have hf := check_good_term_fail s r (by rw [h2])
          rw [h2] at hf
          exact hf
        | true =>
          have hp2 := check_good_term_pass s r (by rw [h2])
          rw [h2] at hp2
          have hst2 : s = st2 := (congrArg Prod.snd hp2).symm
          subst hst2
          dsimp only at h ⊢
          exact check_compatible_terms_fail s l r h

/-- A failing check_compatible_bv_terms only sets the error record. -/
theorem check_compatible_bv_terms_fail (s : YState) (t1 t2 : Int)
    (h : (check_compatible_bv_terms s t1 t2).1 = false) :
    tables_unchanged s (check_compatible_bv_terms s t1 t2).2 ∧
    (check_compatible_bv_terms s t1 t2).2.error.code
      ≠ ErrorCode.NO_ERROR := by
  unfold check_compatible_bv_terms andCheck at h ⊢
  cases h1 : check_good_term s t1 with
  | mk b1 st1 =>
    rw [h1] at h
    cases b1 with
    | false =>
      have hf := check_good_term_fail s t1 (by rw [h1])
      rw [h1] at hf
      exact hf
    | true =>
      have hp := check_good_term_pass s t1 (by rw [h1])
      rw [h1] at hp
      have hst : s = st1 := (congrArg Prod.snd hp).symm
      subst hst
      dsimp only at h ⊢
      cases h2 : check_good_term s t2 with
      | mk b2 st2 =>
        rw [h2] at h
        cases b2 with
        | false =>
          have hf := check_good_term_fail s t2 (by rw [h2])
          rw [h2] at hf
          exact hf
        | true =>
          have hp2 := check_good_term_pass s t2 (by rw [h2])
          rw [h2] at hp2
          have hst2 : s = st2 := (congrArg Prod.snd hp2).symm
          subst hst2
          dsimp only at h ⊢
          cases h3 : check_bitvector_term s t1 with
          | mk b3 st3 =>
            rw [h3] at h
            cases b3 with
            | false =>
              have hf := check_bitvector_term_fail s t1 (by rw [h3])
              rw [h3] at hf
              exact hf
            | true =>
              have hp3 := check_bitvector_term_pass s t1 (by rw [h3])
              rw [h3] at hp3
              have hst3 : s = st3 := (congrArg Prod.snd hp3).symm
              subst hst3
              dsimp only at h ⊢
              cases h4 : check_bitvector_term s t2 with
              | mk b4 st4 =>
                rw [h4] at h
                cases b4 with
                | false =>
                  have hf := check_bitvector_term_fail s t2 (by rw [h4])
                  rw [h4] at hf
                  exact hf
                | true =>
                  have hp4 := check_bitvector_term_pass s t2 (by rw [h4])
                  rw [h4] at hp4
                  have hst4 : s = st4 := (congrArg Prod.snd hp4).symm
                  subst hst4
                  dsimp only at h ⊢
                  exact check_compatible_terms_fail s t1 t2 h

/-- A failing check_good_distinct_term only sets the error record. -/
theorem check_good_distinct_term_fail (s : YState) (a : List Int)
    (h : (check_good_distinct_term s a).1 = false) :
    tables_unchanged s (check_good_distinct_term s a).2 ∧
    (check_good_distinct_term s a).2.error.code ≠ ErrorCode.NO_ERROR := by
  unfold check_good_distinct_term andCheck at h ⊢
  cases h1 : check_positive s a.length with
  | mk b1 st1 =>
    rw [h1] at h
    cases b1 with
    | false =>
      have hf := check_positive_fail s a.length (by rw [h1])
      rw [h1] at hf
      exact hf
    | true =>
      have hp := check_positive_id s a.length (by rw [h1])
      rw [h1] at hp
      have hst : s = st1 := (congrArg Prod.snd hp).symm
      subst hst
      dsimp only at h ⊢
      cases h2 : check_arity s a.length with
      | mk b2 st2 =>
        rw [h2] at h
        cases b2 with
        | false =>
          have hf := check_arity_fail s a.length (by rw [h2])
          rw [h2] at hf
          exact hf
        | true =>
          have hp2 := check_arity_id s a.length (by rw [h2])
          rw [h2] at hp2
          have hst2 : s = st2 := (congrArg Prod.snd hp2).symm
          subst hst2
          dsimp only at h ⊢
          cases h3 : check_good_terms s a with
          | mk b3 st3 =>
            rw [h3] at h
            cases b3 with
            | false =>
              have hf := check_good_terms_fail s a (by rw [h3])
              rw [h3] at hf
              exact hf
            | true =>
              have hp3 := check_good_terms_pass s a (by rw [h3])
              rw [h3] at hp3
              have hst3 : s = st3 := (congrArg Prod.snd hp3).symm
              subst hst3
              dsimp only at h ⊢
              cases a with
              | nil => simp at h
              | cons a0 rest =>
                exact distinct_type_fold_fail s a0 rest (term_type s a0) h

end YicesSpec

namespace YicesSpec

/-- A yices_ite call failing validation is rejected with no side
effect. -/
theorem yices_ite_reject (s : YState) (c t e : Int)
    (h : yices_ite_validates s c t e = false) :
    rejects s (yices_ite s c t e) := by
  unfold yices_ite_validates at h
  unfold yices_ite check_good_term check_boolean_term
  by_cases h1 : bad_term s c = true
  · rw [if_pos h1]
    exact ⟨rfl, ⟨rfl, rfl, rfl, rfl⟩, by simp⟩
  · rw [if_neg h1]
    dsimp only
    by_cases h2 : bad_term s t = true
    · rw [if_pos h2]
      exact ⟨rfl, ⟨rfl, rfl, rfl, rfl⟩, by simp⟩
    · rw [if_neg h2]
      dsimp only
      by_cases h3 : bad_term s e = true
      · rw [if_pos h3]
        exact ⟨rfl, ⟨rfl, rfl, rfl, rfl⟩, by simp⟩
      · rw [if_neg h3]
        dsimp only
        by_cases h4 : is_boolean_term s c = true
        · rw [if_pos h4]
          dsimp only
          have h5 : super_type s.types (term_type s t) (term_type s e) =
              NULL_TYPE := by
            simp only [Bool.not_eq_true] at h1 h2 h3
            simp [h1, h2, h3, h4] at h
            exact h
          rw [if_pos h5]
          exact ⟨rfl, ⟨rfl, rfl, rfl, rfl⟩, by simp⟩
        · rw [if_neg h4]
          exact ⟨rfl, ⟨rfl, rfl, rfl, rfl⟩, by simp⟩

/-- A yices_eq call failing validation is rejected with no side
effect. -/
theorem yices_eq_reject (s : YState) (l r : Int)
    (h : (check_good_eq s l r).1 = false) :
    rejects s (yices_eq s l r) := by
  have hf := check_good_eq_fail s l r h
  unfold yices_eq
  cases hc : check_good_eq s l r with
  | mk b st =>
    rw [hc] at h hf
    cases b with
    | true => simp at h
    | false => exact ⟨rfl, hf.1, hf.2⟩

/-- A yices_neq call failing validation is rejected with no side
effect. -/
theorem yices_neq_reject (s : YState) (l r : Int)
    (h : (check_good_eq s l r).1 = false) :
    rejects s (yices_neq s l r) := by
  have hf := check_good_eq_fail s l r h
  unfold yices_neq
  cases hc : check_good_eq s l r with
  | mk b st =>
    rw [hc] at h hf
    cases b with
    | true => simp at h
    | false => exact ⟨rfl, hf.1, hf.2⟩

/-- A yices_or call failing validation is rejected with no side
effect. -/
theorem yices_or_reject (s : YState) (arg : List Int)
    (h : ((check_arity s arg.length).1 && (check_good_terms s arg).1 &&
          (check_boolean_args s arg).1) = false) :
    rejects s (yices_or s arg) := by
  unfold yices_or check_nonneg
  dsimp only
  cases ha : (check_arity s arg.length).1 with
  | false =>
    have hf := check_arity_fail s arg.length ha
    cases hc : check_arity s arg.length with
    | mk b st =>
      rw [hc] at ha hf
      cases b with
      | true => simp at ha
      | false => exact ⟨rfl, hf.1, hf.2⟩
  | true =>
    rw [check_arity_id s arg.length ha]
    dsimp only
    cases hg : (check_good_terms s arg).1 with
    | false =>
      have hf := check_good_terms_fail s arg hg
      cases hc : check_good_terms s arg with
      | mk b st =>
        rw [hc] at hg hf
        cases b with
        | true => simp at hg
        | false => exact ⟨rfl, hf.1, hf.2⟩
    | true =>
      rw [check_good_terms_pass s arg hg]
      dsimp only
      have hb : (check_boolean_args s arg).1 = false := by
        rw [ha, hg] at h
        simpa using h
      have hf := check_boolean_args_fail s arg hb
      cases hc : check_boolean_args s arg with
      | mk b st =>
        rw [hc] at hb hf
        cases b with
        | true => simp at hb
        | false => exact ⟨rfl, hf.1, hf.2⟩

/-- A yices_and call failing validation is rejected with no side
effect. -/
theorem yices_and_reject (s : YState) (arg : List Int)
    (h : ((check_arity s arg.length).1 && (check_good_terms s arg).1 &&
          (check_boolean_args s arg).1) = false) :
    rejects s (yices_and s arg) := by
  unfold yices_and check_nonneg
  dsimp only
  cases ha : (check_arity s arg.length).1 with
  | false =>
    have hf := check_arity_fail s arg.length ha
    cases hc : check_arity s arg.length with
    | mk b st =>
      rw [hc] at ha hf
      cases b with
      | true => simp at ha
      | false => exact ⟨rfl, hf.1, hf.2⟩
  | true =>
    rw [check_arity_id s arg.length ha]
    dsimp only
    cases hg : (check_good_terms s arg).1 with
    | false =>
      have hf := check_good_terms_fail s arg hg
      cases hc : check_good_terms s arg with
      | mk b st =>
        rw [hc] at hg hf
        cases b with
        | true => simp at hg
        | false => exact ⟨rfl, hf.1, hf.2⟩
    | true =>
      rw [check_good_terms_pass s arg hg]
      dsimp only
      have hb : (check_boolean_args s arg).1 = false := by
        rw [ha, hg] at h
        simpa using h
      have hf := check_boolean_args_fail s arg hb
      cases hc : check_boolean_args s arg with
      | mk b st =>
        rw [hc] at hb hf
        cases b with
        | true => simp at hb
        | false => exact ⟨rfl, hf.1, hf.2⟩

/-- A yices_not call failing validation is rejected with no side
effect. -/
theorem yices_not_reject (s : YState) (a : Int)
    (h : ((check_good_term s a).1 && (check_boolean_term s a).1) = false) :
    rejects s (yices_not s a) := by
  unfold yices_not
  cases hg : (check_good_term s a).1 with
  | false =>
    have hf := check_good_term_fail s a hg
    cases hc : check_good_term s a with
    | mk b st =>
      rw [hc] at hg hf
      cases b with
      | true => simp at hg
      | false => exact ⟨rfl, hf.1, hf.2⟩
  | true =>
    rw [check_good_term_pass s a hg]
    dsimp only
    have hb : (check_boolean_term s a).1 = false := by
      rw [hg] at h
      simpa using h
    have hf := check_boolean_term_fail s a hb
    cases hc : check_boolean_term s a with
    | mk b st =>
      rw [hc] at hb hf
      cases b with
      | true => simp at hb
      | false => exact ⟨rfl, hf.1, hf.2⟩

/-- A yices_distinct call on other than two arguments failing validation
is rejected with no side effect. -/
theorem yices_distinct_reject (s : YState) (arg : List Int)
    (hlen : arg.length ≠ 2)
    (h : (check_good_distinct_term s arg).1 = false) :
    rejects s (yices_distinct s arg) := by
  have hf := check_good_distinct_term_fail s arg h
  unfold yices_distinct
  rcases arg with _ | ⟨a, _ | ⟨b, _ | ⟨c, rest⟩⟩⟩
  · dsimp only
    cases hc : check_good_distinct_term s ([] : List Int) with
    | mk bb st =>
      rw [hc] at h hf
      cases bb with
      | true => simp at h
      | false => exact ⟨rfl, hf.1, hf.2⟩
  · dsimp only
    cases hc : check_good_distinct_term s [a] with
    | mk bb st =>
      rw [hc] at h hf
      cases bb with
      | true => simp at h
      | false => exact ⟨rfl, hf.1, hf.2⟩
  · simp at hlen
  · dsimp only
    cases hc : check_good_distinct_term s (a :: b :: c :: rest) with
    | mk bb st =>
      rw [hc] at h hf
      cases bb with
      | true => simp at h
      | false => exact ⟨rfl, hf.1, hf.2⟩

/-- A yices_bvshl call failing validation is rejected with no side
effect. -/
theorem yices_bvshl_reject (s : YState) (t1 t2 : Int)
    (h : (check_compatible_bv_terms s t1 t2).1 = false) :
    rejects s (yices_bvshl s t1 t2) := by
  have hf := check_compatible_bv_terms_fail s t1 t2 h
  unfold yices_bvshl
  cases hc : check_compatible_bv_terms s t1 t2 with
  | mk b st =>
    rw [hc] at h hf
    cases b with
    | true => simp at h
    | false => exact ⟨rfl, hf.1, hf.2⟩

/-- A yices_bvlshr call failing validation is rejected with no side
effect. -/
theorem yices_bvlshr_reject (s : YState) (t1 t2 : Int)
    (h : (check_compatible_bv_terms s t1 t2).1 = false) :
    rejects s (yices_bvlshr s t1 t2) := by
  have hf := check_compatible_bv_terms_fail s t1 t2 h
  unfold yices_bvlshr
  cases hc : check_compatible_bv_terms s t1 t2 with
  | mk b st =>
    rw [hc] at h hf
    cases b with
    | true => simp at h
    | false => exact ⟨rfl, hf.1, hf.2⟩

/-- A yices_bvashr call failing validation is rejected with no side
effect. -/
theorem yices_bvashr_reject (s : YState) (t1 t2 : Int)
    (h : (check_compatible_bv_terms s t1 t2).1 = false) :
    rejects s (yices_bvashr s t1 t2) := by
  have hf := check_compatible_bv_terms_fail s t1 t2 h
  unfold yices_bvashr
  cases hc : check_compatible_bv_terms s t1 t2 with
  | mk b st =>
    rw [hc] at h hf
    cases b with
    | true => simp at h
    | false => exact ⟨rfl, hf.1, hf.2⟩

/-- C3: for every public constructor embedded from term_api.c
(yices_ite, yices_eq, yices_neq, yices_or, yices_and, yices_not,
yices_distinct, yices_bvshl, yices_bvlshr, yices_bvashr) and every
input failing a validation check (bad handle, type mismatch, arity
limit), the constructor returns NULL_TERM, sets the last-error record,
and leaves the type table, the term table and both internal buffers
exactly as they were before the call: all checks run before any
mutation. -/
theorem c3_validation_failure_side_effect_free :
    (∀ (s : YState) (c t e : Int), yices_ite_validates s c t e = false →
       rejects s (yices_ite s c t e)) ∧
    (∀ (s : YState) (l r : Int), (check_good_eq s l r).1 = false →
       rejects s (yices_eq s l r) ∧ rejects s (yices_neq s l r) ∧
       rejects s (yices_distinct s [l, r])) ∧
    (∀ (s : YState) (arg : List Int),
       ((check_arity s arg.length).1 && (check_good_terms s arg).1 &&
         (check_boolean_args s arg).1) = false →
       rejects s (yices_or s arg) ∧ rejects s (yices_and s arg)) ∧
    (∀ (s : YState) (a : Int),
       ((check_good_term s a).1 && (check_boolean_term s a).1) = false →
       rejects s (yices_not s a)) ∧
    (∀ (s : YState) (arg : List Int), arg.length ≠ 2 →
       (check_good_distinct_term s arg).1 = false →
       rejects s (yices_distinct s arg)) ∧
    (∀ (s : YState) (t1 t2 : Int),
       (check_compatible_bv_terms s t1 t2).1 = false →
       rejects s (yices_bvshl s t1 t2) ∧ rejects s (yices_bvlshr s t1 t2) ∧
       rejects s (yices_bvashr s t1 t2)) :=
  ⟨yices_ite_reject,
   fun s l r h =>
     ⟨yices_eq_reject s l r h, yices_neq_reject s l r h,
      yices_neq_reject s l r h⟩,
   fun s arg h => ⟨yices_or_reject s arg h, yices_and_reject s arg h⟩,
   yices_not_reject,
   yices_distinct_reject,
   fun s t1 t2 h =>
     ⟨yices_bvshl_reject s t1 t2 h, yices_bvlshr_reject s t1 t2 h,
      yices_bvashr_reject s t1 t2 h⟩⟩

/-- C3 witness: concrete failing calls over SA for each embedded public
constructor: a bad handle for ite, eq, neq and the pair and triple
forms of distinct, a non-boolean argument for or, and, not, and a
non-bitvector shift amount for the three shifts. -/
theorem c3_witness :
    rejects SA (yices_ite SA NULL_TERM 0 0) ∧
    rejects SA (yices_eq SA (-1) 0) ∧
    rejects SA (yices_neq SA (-1) 0) ∧
    rejects SA (yices_distinct SA [-1, 0]) ∧
    rejects SA (yices_or SA [2, 24]) ∧
    rejects SA (yices_and SA [2, 24]) ∧
    rejects SA (yices_not SA 24) ∧
    rejects SA (yices_distinct SA [2, 4, -1]) ∧
    rejects SA (yices_bvshl SA 16 24) ∧
    rejects SA (yices_bvlshr SA 16 24) ∧
    rejects SA (yices_bvashr SA 16 24) :=
  ⟨c3_validation_failure_side_effect_free.1 SA NULL_TERM 0 0 (by decide),
   (c3_validation_failure_side_effect_free.2.1 SA (-1) 0 (by decide)).1,
   (c3_validation_failure_side_effect_free.2.1 SA (-1) 0 (by decide)).2.1,
   (c3_validation_failure_side_effect_free.2.1 SA (-1) 0 (by decide)).2.2,
   (c3_validation_failure_side_effect_free.2.2.1 SA [2, 24] (by decide)).1,
   (c3_validation_failure_side_effect_free.2.2.1 SA [2, 24] (by decide)).2,
   c3_validation_failure_side_effect_free.2.2.2.1 SA 24 (by decide),
   c3_validation_failure_side_effect_free.2.2.2.2.1 SA [2, 4, -1]
     (by decide) (by decide),
   (c3_validation_failure_side_effect_free.2.2.2.2.2 SA 16 24 (by decide)).1,
   (c3_validation_failure_side_effect_free.2.2.2.2.2 SA 16 24
     (by decide)).2.1,
   (c3_validation_failure_side_effect_free.2.2.2.2.2 SA 16 24
     (by decide)).2.2⟩

end YicesSpec
